import Mathlib

/-!
Verification model of an in-browser context-assembly layer for an
editor-integrated writing assistant (LaTeX-oriented).  The definitions below
are a shallow embedding of the TypeScript sources:

* `CodeChunker` (improvement.ts): LaTeX chunk extraction via regex scans;
* `SemanticContextManager` (improvement.ts): lexical vectors and cosine ranking;
* `CursorSemanticIndex` (semanticEmbeddings.ts): dense-embedding index;
* `CursorContextRetriever` (cursorContext.ts): token-budget trimming;
* `CursorCache` (cursorCache.ts): query cache, fast path, invalidation;
* `getImprovement` / `getImprovementStream` (improvement.ts): abort handling.

JavaScript numbers are modelled as exact rationals (`ℚ`) where the code only
adds, multiplies and divides by nonzero constants; cosine-similarity scores,
which involve `Math.sqrt`, are modelled in `ℝ`, with the JS non-finite values
(`NaN`, `Infinity`) represented explicitly by the `JsNum` type.  `Date.now()`
is threaded through as an explicit `now : ℕ` parameter.  Loops are modelled by
structural recursion, using a fuel argument where the source loop advances a
scan position rather than a list.
-/

set_option maxRecDepth 20000

/-- JS `ToInt32`: reduce an integer into the range `[-2^31, 2^31)`. -/
def toInt32 (n : Int) : Int := (n + 2 ^ 31) % 2 ^ 32 - 2 ^ 31

/-- JS `hash << 5`: `ToInt32(hash) * 32`, wrapped back into 32 bits. -/
def jsShl5 (h : Int) : Int := toInt32 (toInt32 h * 32)

/-- One step of `CursorCache.hashString`: `hash = ((hash << 5) - hash) + char`,
followed by `hash = hash & hash` (which coerces to a 32-bit integer). -/
def hashStep (h : Int) (c : Char) : Int := toInt32 (jsShl5 h - h + c.toNat)

/-- `CursorCache.hashString` (cursorCache.ts:332-340): iterate `hashStep` over
the characters (code points; the sources only hash ASCII) starting from 0. -/
def hashString (s : String) : Int := s.toList.foldl hashStep 0

/-- `str.slice(-n)` in JS: the last `n` characters (the whole string when
shorter than `n`). -/
def jsSliceFromEnd (n : Nat) (s : String) : String :=
  ⟨s.toList.drop (s.toList.length - n)⟩

/-- `str.slice(a)` in JS: drop the first `a` characters. -/
def jsSliceFrom (a : Nat) (s : String) : String := ⟨s.toList.drop a⟩

/-- `str.slice(a, b)` in JS (for `a ≤ b`): characters `a` up to `b`. -/
def jsSlice (a b : Nat) (s : String) : String := ⟨(s.toList.take b).drop a⟩

/-- `str.split('\n')` on character lists: split at every newline, keeping
empty pieces (so the result is never empty). -/
def splitOnNl : List Char → List (List Char)
  | [] => [[]]
  | c :: cs =>
    if c = '\n' then [] :: splitOnNl cs
    else
      match splitOnNl cs with
      | [] => [[c]]
      | t :: ts => (c :: t) :: ts

/-- `lines.join('\n')`: concatenate with newline separators (inverse of
`splitOnNl`). -/
def joinNl : List (List Char) → List Char
  | [] => []
  | [l] => l
  | l :: ls => l ++ '\n' :: joinNl ls

/-- `str.split(',')` on character lists: split at every comma, keeping empty
pieces, as JS `String.prototype.split` does with a single-character separator. -/
def splitOnComma : List Char → List (List Char)
  | [] => [[]]
  | c :: cs =>
    if c = ',' then [] :: splitOnComma cs
    else
      match splitOnComma cs with
      | [] => [[c]]
      | t :: ts => (c :: t) :: ts

/-- ASCII whitespace, the fragment of JS `\s` exercised by the sources. -/
def isWsChar (c : Char) : Bool :=
  c = ' ' || c = '\t' || c = '\n' || c = '\r' || c = '\x0b' || c = '\x0c'

/-- Worker for `jsSplitWs`; the fuel is at least the length of the list, and
each recursive call consumes at least one whitespace character. -/
def splitWsGo : Nat → List Char → List (List Char)
  | 0, _ => []
  | fuel + 1, s =>
    let tok := s.takeWhile (fun c => !isWsChar c)
    let rest := s.dropWhile (fun c => !isWsChar c)
    if rest.isEmpty then [tok]
    else tok :: splitWsGo fuel (rest.dropWhile isWsChar)

/-- `str.split(/\s+/)` in JS: pieces between maximal whitespace runs, with an
empty first (resp. last) piece when the string starts (resp. ends) with
whitespace, and `[""]` for the empty string. -/
def jsSplitWs (s : String) : List String :=
  (splitWsGo (s.toList.length + 1) s.toList).map (fun l => ⟨l⟩)

/-- `str.toLowerCase()` (ASCII fragment). -/
def jsToLower (s : String) : String := ⟨s.toList.map Char.toLower⟩

/-- `str.trim()` (ASCII whitespace fragment). -/
def jsTrim (s : String) : String :=
  ⟨((s.toList.dropWhile isWsChar).reverse.dropWhile isWsChar).reverse⟩

/-- Insert `x` into `l` in front of the first element `y` with
`lt y x = false`; auxiliary for `sortComp`. -/
def insComp (lt : α → α → Bool) (x : α) : List α → List α
  | [] => [x]
  | y :: ys => if lt y x then y :: insComp lt x ys else x :: y :: ys

/-- Stable comparator sort.  This models ES2019+ `Array.prototype.sort` with a
consistent comparator `cmp`: element `a` is placed before `b` exactly when
`cmp a b < 0` (encoded as `lt a b = true`), and tied elements keep their
original relative order. -/
def sortComp (lt : α → α → Bool) : List α → List α
  | [] => []
  | x :: xs => insComp lt x (sortComp lt xs)

/-- Does the pattern `pat` occur at the head of `s`? -/
def startsWith : List Char → List Char → Bool
  | [], _ => true
  | _ :: _, [] => false
  | p :: ps, c :: cs => p == c && startsWith ps cs

/-- Does the pattern `pat` occur in `s` at position `i`? -/
def tokenAt (pat s : List Char) (i : Nat) : Bool := startsWith pat (s.drop i)

/-- `a.includes(b)` for strings: substring occurrence. -/
def jsIncludes (sub s : String) : Bool :=
  (List.range (s.toList.length + 1)).any (fun i => tokenAt sub.toList s.toList i)

/-- First position `i ∈ [pos, pos + count)` where `f i` fires, together with
its value: the leftmost-match rule of a regex scan starting at `pos`. -/
def scanFirst (f : Nat → Option α) (pos count : Nat) : Option (Nat × α) :=
  (List.range' pos count).findSome? (fun i => (f i).map (fun a => (i, a)))

namespace CodeChunker

/-! Model of `CodeChunker` (improvement.ts:297-713).  The environment regexes
`\begin{(e₁|e₂|…)\*?}([\s\S]*?)\end{\1\*?}` (global flag) are modelled by an
explicit leftmost-match scan: the earliest `\begin` token that is followed by
an `\end` token of the same environment starts a match; the (lazy) body runs
to the earliest such `\end` token; scanning resumes after the match
(`lastIndex`).  A `\begin` with no later matching `\end` is skipped, exactly
as the backtracking regex engine does. -/

/-- The literal `\begin{env}` token. -/
def beginTok (env : String) : List Char := ("\\begin\x7b" ++ env ++ "\x7d").toList

/-- The literal `\begin{env*}` token (the regex `\*?` is greedy). -/
def beginTokStar (env : String) : List Char := ("\\begin\x7b" ++ env ++ "*\x7d").toList

/-- The literal `\end{env}` token. -/
def endTok (env : String) : List Char := ("\\end\x7b" ++ env ++ "\x7d").toList

/-- The literal `\end{env*}` token. -/
def endTokStar (env : String) : List Char := ("\\end\x7b" ++ env ++ "*\x7d").toList

/-- Try to match `\begin{env\*?}` at position `i`; returns the position just
after the token (the start of the lazy body). -/
def matchBeginAt (env : String) (s : List Char) (i : Nat) : Option Nat :=
  if tokenAt (beginTokStar env) s i then some (i + (beginTokStar env).length)
  else if tokenAt (beginTok env) s i then some (i + (beginTok env).length)
  else none

/-- Try to match `\end{env\*?}` at position `j`; returns the position just
after the token (the end of the whole regex match). -/
def matchEndAt (env : String) (s : List Char) (j : Nat) : Option Nat :=
  if tokenAt (endTokStar env) s j then some (j + (endTokStar env).length)
  else if tokenAt (endTok env) s j then some (j + (endTok env).length)
  else none

/-- Leftmost `\begin` token of one of the alternation's environments at or
after `pos`: returns `(i, env, bodyStart)`. -/
def findBeginFrom (envs : List String) (s : List Char) (pos : Nat) :
    Option (Nat × String × Nat) :=
  (scanFirst
    (fun i => envs.findSome? (fun e => (matchBeginAt e s i).map (fun j => (e, j))))
    pos (s.length + 1 - pos)).map (fun p => (p.1, p.2.1, p.2.2))

/-- Leftmost `\end{env\*?}` token at or after `pos` (the lazy `[\s\S]*?` body
stops at the earliest closing token): returns `(bodyEnd, stop)`. -/
def findEndFrom (env : String) (s : List Char) (pos : Nat) : Option (Nat × Nat) :=
  scanFirst (fun j => matchEndAt env s j) pos (s.length + 1 - pos)

/-- One whole-environment regex match:
`start` = `match.index`, `[bodyStart, bodyEnd)` = the captured lazy body,
`stop` = `match.index + match[0].length`, `env` = the captured `\1`. -/
structure EnvMatch where
  start : Nat
  bodyStart : Nat
  bodyEnd : Nat
  stop : Nat
  env : String
deriving DecidableEq, Repr

/-- Leftmost whole match at or after `pos`: successive `\begin` candidates are
tried until one has a closing token (regex backtracking).  The fuel bounds the
number of candidate positions, `s.length + 1` always suffices. -/
def findEnvMatch : Nat → List String → List Char → Nat → Option EnvMatch
  | 0, _, _, _ => none
  | fuel + 1, envs, s, pos =>
    match findBeginFrom envs s pos with
    | none => none
    | some (i, e, bs) =>
      match findEndFrom e s bs with
      | some (j, stop) => some ⟨i, bs, j, stop, e⟩
      | none => findEnvMatch fuel envs s (i + 1)

/-- All matches of the global regex in order, resuming at `lastIndex`
(= `stop`) after each match. -/
def scanEnvs : Nat → List String → List Char → Nat → List EnvMatch
  | 0, _, _, _ => []
  | fuel + 1, envs, s, pos =>
    match findEnvMatch (s.length + 1) envs s pos with
    | none => []
    | some m => m :: scanEnvs fuel envs s m.stop

/-- All matches of `\begin{(envs)\*?}([\s\S]*?)\end{\1\*?}/g` over `s`. -/
def envMatches (envs : List String) (s : List Char) : List EnvMatch :=
  scanEnvs (s.length + 1) envs s 0

/-- `content.substring(0, i).split('\n').length - 1`: the line number of
position `i`, i.e. the number of newlines before it. -/
def lineOfIndex (s : List Char) (i : Nat) : Nat := (s.take i).count '\n'

/-- The substring `[a, b)` of `s` as a string. -/
def sliceStr (s : List Char) (a b : Nat) : String := ⟨(s.take b).drop a⟩

/-- The captured body `match[i]` of an environment match. -/
def bodyChars (s : List Char) (m : EnvMatch) : List Char :=
  (s.take m.bodyEnd).drop m.bodyStart

/-- Try to match `\cmd{([^}]+)}` at position `i` of `s`, returning the
capture: used for `\label{…}` and `\caption{…}` lookups (non-global `match`,
so only the first occurrence is used by the callers). -/
def matchCmdCaptureAt (cmd : String) (s : List Char) (i : Nat) : Option String :=
  let tok : List Char := ("\\" ++ cmd ++ "\x7b").toList
  if tokenAt tok s i then
    let rest := s.drop (i + tok.length)
    let cap := rest.takeWhile (fun c => c ≠ '}')
    if cap.isEmpty then none
    else
      match rest.drop cap.length with
      | '}' :: _ => some ⟨cap⟩
      | _ => none
  else none

/-- `str.match(/\\cmd\{([^}]+)\}/)?.[1]`: the first capture in `s`, if any. -/
def firstCapture (cmd : String) (s : List Char) : Option String :=
  (scanFirst (fun i => matchCmdCaptureAt cmd s i) 0 (s.length + 1)).map (fun p => p.2)

/-- `Section` record of `extractSections` (improvement.ts:254-260). -/
structure SectionRec where
  title : String
  content : String
  level : Nat
  startLine : Nat
  endLine : Nat
deriving DecidableEq, Repr

/-- `Equation` record (improvement.ts:262-267). -/
structure Equation where
  content : String
  number : Option String
  startLine : Nat
  endLine : Nat
deriving DecidableEq, Repr

/-- `Figure` record (improvement.ts:269-275), also used for tables. -/
structure Figure where
  content : String
  caption : Option String
  label : Option String
  startLine : Nat
  endLine : Nat
deriving DecidableEq, Repr

/-- `Citation` record (improvement.ts:277-282). -/
structure Citation where
  key : String
  context : String
  startLine : Nat
  endLine : Nat
deriving DecidableEq, Repr

/-- Record for the `{content, label, startLine, endLine}` objects produced by
`extractDefinitions` / `extractTheorems` / `extractProofs`. -/
structure EnvBlock where
  content : String
  label : Option String
  startLine : Nat
  endLine : Nat
deriving DecidableEq, Repr

/-- The heading alternation `(section|subsection|subsubsection|chapter|part)`. -/
def sectionNames : List String := ["section", "subsection", "subsubsection", "chapter", "part"]

/-- Try to match `\\(section|…|part)\*?\{([^}]+)\}` at position `i` of a line:
returns `(name, title, stop)` where `name` is the first capture (without the
star), `title` the second, and `stop` the end of the match. -/
def matchSectionAt (line : List Char) (i : Nat) : Option (String × String × Nat) :=
  sectionNames.findSome? (fun nm =>
    let tok : List Char := ("\\" ++ nm).toList
    if tokenAt tok line i then
      let j := i + tok.length
      let j2 := match line.drop j with
        | '*' :: _ => j + 1
        | _ => j
      match line.drop j2 with
      | '{' :: rest =>
        let cap := rest.takeWhile (fun c => c ≠ '}')
        if cap.isEmpty then none
        else
          match rest.drop cap.length with
          | '}' :: _ => some (nm, (⟨cap⟩ : String), j2 + 1 + cap.length + 1)
          | _ => none
      | _ => none
    else none)

/-- `sectionRegex.exec(line)` where the global regex keeps its `lastIndex`
across calls (the regex object lives outside the line loop in
`extractSections`): search from `lastIndex`; a failed search (or a
`lastIndex` beyond the line) returns `none` and resets `lastIndex` to 0. -/
def execSection (line : List Char) (lastIndex : Nat) :
    Option (Nat × String × String × Nat) :=
  if lastIndex > line.length then none
  else
    (scanFirst (fun i => matchSectionAt line i) lastIndex (line.length + 1 - lastIndex)).map
      (fun p => (p.1, p.2.1, p.2.2.1, p.2.2.2))

/-- `getSectionLevel` (improvement.ts:692-701). -/
def getSectionLevel (nm : String) : Nat :=
  if nm = "part" then 0
  else if nm = "chapter" then 1
  else if nm = "section" then 2
  else if nm = "subsection" then 3
  else if nm = "subsubsection" then 4
  else 2

/-- The line loop of `extractSections` (improvement.ts:464-503): `i` is the
current line index, `lastIdx` the sticky `lastIndex` of the shared global
regex, `cur` the currently open section.  A heading match closes the open
section at line `i - 1` and opens a new one; other lines are appended to the
open section; at end of input the open section closes at the last line. -/
def extractSectionsGo : List (List Char) → Nat → Nat → Option SectionRec → List SectionRec
  | [], i, _, cur =>
    (match cur with
     | some sec => [{ sec with endLine := i - 1 }]
     | none => [])
  | line :: rest, i, lastIdx, cur =>
    match execSection line lastIdx with
    | some (_, nm, title, stop) =>
      (match cur with
       | some sec => [{ sec with endLine := i - 1 }]
       | none => []) ++
      extractSectionsGo rest (i + 1) stop
        (some { title := title, content := ⟨line⟩, level := getSectionLevel nm,
                startLine := i, endLine := i })
    | none =>
      extractSectionsGo rest (i + 1) 0
        (cur.map (fun sec => { sec with content := sec.content ++ "\n" ++ (⟨line⟩ : String) }))

/-- `extractSections` (improvement.ts:464-503). -/
def extractSections (content : String) : List SectionRec :=
  extractSectionsGo (splitOnNl content.toList) 0 0 none

/-- The equation environments of `extractEquations` (improvement.ts:510). -/
def equationEnvs : List String := ["equation", "align", "gather", "multline", "eqnarray"]

/-- `extractEquations` (improvement.ts:505-530): the label is looked up in the
whole match `match[0]`. -/
def extractEquations (content : String) : List Equation :=
  let s := content.toList
  (envMatches equationEnvs s).map (fun m =>
    { content := sliceStr s m.start m.stop
      number := firstCapture "label" ((s.take m.stop).drop m.start)
      startLine := lineOfIndex s m.start
      endLine := lineOfIndex s m.stop })

/-- `extractFigures` (improvement.ts:532-558): caption and label are looked up
in the captured body `match[1]`. -/
def extractFigures (content : String) : List Figure :=
  let s := content.toList
  (envMatches ["figure"] s).map (fun m =>
    { content := sliceStr s m.start m.stop
      caption := firstCapture "caption" (bodyChars s m)
      label := firstCapture "label" (bodyChars s m)
      startLine := lineOfIndex s m.start
      endLine := lineOfIndex s m.stop })

/-- `extractTables` (improvement.ts:560-585): caption and label are looked up
in the captured body `match[2]`. -/
def extractTables (content : String) : List Figure :=
  let s := content.toList
  (envMatches ["table", "tabular", "longtable"] s).map (fun m =>
    { content := sliceStr s m.start m.stop
      caption := firstCapture "caption" (bodyChars s m)
      label := firstCapture "label" (bodyChars s m)
      startLine := lineOfIndex s m.start
      endLine := lineOfIndex s m.stop })

/-- `extractDefinitions` (improvement.ts:620-642). -/
def extractDefinitions (content : String) : List EnvBlock :=
  let s := content.toList
  (envMatches ["definition", "defn", "def"] s).map (fun m =>
    { content := sliceStr s m.start m.stop
      label := firstCapture "label" (bodyChars s m)
      startLine := lineOfIndex s m.start
      endLine := lineOfIndex s m.stop })

/-- `extractTheorems` (improvement.ts:644-666). -/
def extractTheorems (content : String) : List EnvBlock :=
  let s := content.toList
  (envMatches ["theorem", "lemma", "corollary", "proposition"] s).map (fun m =>
    { content := sliceStr s m.start m.stop
      label := firstCapture "label" (bodyChars s m)
      startLine := lineOfIndex s m.start
      endLine := lineOfIndex s m.stop })

/-- `extractProofs` (improvement.ts:668-690): the label is looked up in the
captured body `match[1]`. -/
def extractProofs (content : String) : List EnvBlock :=
  let s := content.toList
  (envMatches ["proof"] s).map (fun m =>
    { content := sliceStr s m.start m.stop
      label := firstCapture "label" (bodyChars s m)
      startLine := lineOfIndex s m.start
      endLine := lineOfIndex s m.stop })

/-- The citation command alternation `(cite|citep|citet|citeauthor|citeyear)`,
in source order. -/
def citeNames : List String := ["cite", "citep", "citet", "citeauthor", "citeyear"]

/-- Try to match `\\(cite|…)\{([^}]+)\}` at position `i` of a line: returns
the raw key list capture and the end of the match. -/
def matchCiteAt (line : List Char) (i : Nat) : Option (String × Nat) :=
  citeNames.findSome? (fun nm =>
    let tok : List Char := ("\\" ++ nm ++ "\x7b").toList
    if tokenAt tok line i then
      let rest := line.drop (i + tok.length)
      let cap := rest.takeWhile (fun c => c ≠ '}')
      if cap.isEmpty then none
      else
        match rest.drop cap.length with
        | '}' :: _ => some ((⟨cap⟩ : String), i + tok.length + cap.length + 1)
        | _ => none
    else none)

/-- The `while ((match = citationRegex.exec(line)) !== null)` loop: all
matches of the citation regex in one line, in order. -/
def execAllCites : Nat → List Char → Nat → List (String × Nat)
  | 0, _, _ => []
  | fuel + 1, line, pos =>
    match scanFirst (fun i => matchCiteAt line i) pos (line.length + 1 - pos) with
    | none => []
    | some (_, keys, stop) => (keys, stop) :: execAllCites fuel line stop

/-- `extractCitations` (improvement.ts:587-618): one `Citation` per comma-
separated key of each citation command, with a ±2-line context window. -/
def extractCitations (content : String) : List Citation :=
  let lines := splitOnNl content.toList
  lines.enum.flatMap (fun p =>
    (execAllCites (p.2.length + 1) p.2 0).flatMap (fun kp =>
      (splitOnComma kp.1.toList).map (fun k =>
        let contextStart := p.1 - 2
        let contextEnd := min (lines.length - 1) (p.1 + 2)
        { key := jsTrim ⟨k⟩
          context := ⟨joinNl ((lines.drop contextStart).take (contextEnd + 1 - contextStart))⟩
          startLine := contextStart
          endLine := contextEnd })))

/-- The closed `type` tag set of `TexChunk` (improvement.ts:239). -/
inductive TexChunkType where
  | sec | subsec | subsubsec | eqn | fig | tab | cit | defn | thm | prf
  | imp | abstr | intro | concl
deriving DecidableEq, Repr

/-- `metadata` of `TexChunk` (improvement.ts:241-251). -/
structure TexChunkMeta where
  title : Option String := none
  level : Option Nat := none
  filePath : String
  equationNumber : Option String := none
  figureNumber : Option String := none
  tableNumber : Option String := none
  citationKey : Option String := none
  environment : Option String := none
  caption : Option String := none
deriving DecidableEq, Repr

/-- `TexChunk` (improvement.ts:232-252); the `vector` holds exact rationals. -/
structure TexChunk where
  id : String
  content : String
  file : String
  startLine : Nat
  endLine : Nat
  vector : List ℚ
  type : TexChunkType
  lastModified : Nat
  metadata : TexChunkMeta
deriving DecidableEq, Repr

/-- `getSectionType` (improvement.ts:703-712). -/
def getSectionType (level : Nat) : TexChunkType :=
  if level = 3 then TexChunkType.subsec
  else if level = 4 then TexChunkType.subsubsec
  else TexChunkType.sec

/-- `chunkTexFile` (improvement.ts:298-462): run every extractor and assemble
the chunk list in source order (sections, equations, figures, tables,
citations, definitions, theorems, proofs).  `Date.now()` is the `now`
parameter. -/
def chunkTexFile (now : Nat) (content filePath : String) : List TexChunk :=
  (extractSections content).map (fun sec =>
    { id := filePath ++ ":section:" ++ sec.title
      content := sec.content
      file := filePath
      startLine := sec.startLine
      endLine := sec.endLine
      vector := []
      type := getSectionType sec.level
      lastModified := now
      metadata := { title := some sec.title, level := some sec.level, filePath := filePath } }) ++
  (extractEquations content).map (fun eq =>
    { id := filePath ++ ":equation:" ++ eq.number.getD "unnumbered"
      content := eq.content
      file := filePath
      startLine := eq.startLine
      endLine := eq.endLine
      vector := []
      type := TexChunkType.eqn
      lastModified := now
      metadata := { filePath := filePath, equationNumber := eq.number } }) ++
  (extractFigures content).map (fun fig =>
    { id := filePath ++ ":figure:" ++ fig.label.getD "unnamed"
      content := fig.content
      file := filePath
      startLine := fig.startLine
      endLine := fig.endLine
      vector := []
      type := TexChunkType.fig
      lastModified := now
      metadata := { filePath := filePath, figureNumber := fig.label, caption := fig.caption } }) ++
  (extractTables content).map (fun tab =>
    { id := filePath ++ ":table:" ++ tab.label.getD "unnamed"
      content := tab.content
      file := filePath
      startLine := tab.startLine
      endLine := tab.endLine
      vector := []
      type := TexChunkType.tab
      lastModified := now
      metadata := { filePath := filePath, tableNumber := tab.label, caption := tab.caption } }) ++
  (extractCitations content).map (fun cit =>
    { id := filePath ++ ":citation:" ++ cit.key
      content := cit.context
      file := filePath
      startLine := cit.startLine
      endLine := cit.endLine
      vector := []
      type := TexChunkType.cit
      lastModified := now
      metadata := { filePath := filePath, citationKey := some cit.key } }) ++
  (extractDefinitions content).map (fun d =>
    { id := filePath ++ ":definition:" ++ d.label.getD "unnamed"
      content := d.content
      file := filePath
      startLine := d.startLine
      endLine := d.endLine
      vector := []
      type := TexChunkType.defn
      lastModified := now
      metadata := { filePath := filePath, environment := some "definition", title := d.label } }) ++
  (extractTheorems content).map (fun t =>
    { id := filePath ++ ":theorem:" ++ t.label.getD "unnamed"
      content := t.content
      file := filePath
      startLine := t.startLine
      endLine := t.endLine
      vector := []
      type := TexChunkType.thm
      lastModified := now
      metadata := { filePath := filePath, environment := some "theorem", title := t.label } }) ++
  (extractProofs content).map (fun pr =>
    { id := filePath ++ ":proof:" ++ pr.label.getD "unnamed"
      content := pr.content
      file := filePath
      startLine := pr.startLine
      endLine := pr.endLine
      vector := []
      type := TexChunkType.prf
      lastModified := now
      metadata := { filePath := filePath, environment := some "proof", title := pr.label } })

end CodeChunker

/-- A JS `number` that may be non-finite: similarity scores can be `NaN`
(0/0) or `±Infinity` (x/0). -/
inductive JsNum where
  | num (x : ℝ)
  | nan
  | inf
  | ninf

/-- JS division `x / y` on (idealised, real-valued) numbers: division by zero
yields `NaN` for a zero numerator and `±Infinity` otherwise. -/
noncomputable def jsDiv (x y : ℝ) : JsNum :=
  if y = 0 then (if x = 0 then JsNum.nan else if 0 < x then JsNum.inf else JsNum.ninf)
  else JsNum.num (x / y)

/-- JS `a < b` as used on similarity scores: `false` whenever `NaN` is
involved. -/
noncomputable def jsLt (a b : JsNum) : Bool :=
  match a, b with
  | JsNum.num x, JsNum.num y => decide (x < y)
  | JsNum.num _, JsNum.inf => true
  | JsNum.ninf, JsNum.num _ => true
  | JsNum.ninf, JsNum.inf => true
  | _, _ => false

/-- JS `score > c` for a constant `c` (filter predicates): `false` for `NaN`. -/
noncomputable def jsGtConst (a : JsNum) (c : ℝ) : Bool :=
  match a with
  | JsNum.num x => decide (c < x)
  | JsNum.nan => false
  | JsNum.inf => true
  | JsNum.ninf => false

/-- The shared dot-product loop of both `cosineSimilarity` implementations
(`dotProduct`, and with `v = w` also `norm1` / `norm2`), over exact rationals. -/
def dotQ : List ℚ → List ℚ → ℚ
  | [], _ => 0
  | _ :: _, [] => 0
  | a :: as, b :: bs => a * b + dotQ as bs

/-- Association-list lookup modelling `Map.prototype.get` (JS maps preserve
insertion order; keys are unique). -/
def mapGet (m : List (String × α)) (k : String) : Option α :=
  (m.find? (fun p => decide (p.1 = k))).map (fun p => p.2)

namespace SemanticContextManager

/-- `SemanticContextManager.cosineSimilarity` (improvement.ts:870-884).  Note
there is no zero-denominator guard: a zero-norm argument gives `0/0 = NaN`
(both norms zero) — never an exception, but not the number `0`. -/
noncomputable def cosineSimilarity (vec1 vec2 : List ℚ) : JsNum :=
  if vec1.length ≠ vec2.length then JsNum.num 0
  else
    jsDiv (dotQ vec1 vec2)
      (Real.sqrt (dotQ vec1 vec1) * Real.sqrt (dotQ vec2 vec2))

/-- `freq.set(word, (freq.get(word) || 0) + 1)` on an insertion-ordered map. -/
def bumpWord : List (String × ℚ) → String → List (String × ℚ)
  | [], w => [(w, 1)]
  | (k, v) :: rest, w =>
    if k = w then (k, v + 1) :: rest else (k, v) :: bumpWord rest w

/-- `calculateWordFrequency` (improvement.ts:859-868): word-frequency table of
the lower-cased, whitespace-split text, in first-occurrence order. -/
def calculateWordFrequency (text : String) : List (String × ℚ) :=
  (jsSplitWs (jsToLower text)).foldl bumpWord []

/-- `words.filter(w => w === word).length` as a rational. -/
def countOccur (words : List String) (w : String) : ℚ :=
  ((words.filter (fun x => decide (x = w))).length : ℚ)

/-- `buildVector` (improvement.ts:847-857): for every vocabulary word, in map
iteration (= insertion) order, `occurrences-in-text / global-frequency`.  All
frequencies stored by `calculateWordFrequency` are ≥ 1. -/
def buildVector (text : String) (wordFreq : List (String × ℚ)) : List ℚ :=
  let words := jsSplitWs (jsToLower text)
  wordFreq.map (fun p => countOccur words p.1 / p.2)

/-- The ranking tail of `getRelevantContext` (improvement.ts:808-812):
`filter(score > 0.1) . sort(descending by score, stable) . slice(0, maxResults)
. map(chunk)`. -/
noncomputable def rankScoredChunks (scored : List (CodeChunker.TexChunk × JsNum))
    (maxResults : Nat) : List CodeChunker.TexChunk :=
  ((sortComp (fun a b => jsLt b.2 a.2)
      (scored.filter (fun p => jsGtConst p.2 (1 / 10)))).take maxResults).map
    (fun p => p.1)

/-- A fresh ranking pass of `getRelevantContext` (improvement.ts:792-819),
i.e. the path taken when the `lastQuery` memo does not apply (the memo path
just replays a slice of the previous output): build the vocabulary from all
chunk contents joined by spaces, vectorise the query, score every chunk, then
filter/sort/truncate. -/
noncomputable def getRelevantContextFresh (query : String)
    (chunks : List CodeChunker.TexChunk) (maxResults : Nat) :
    List CodeChunker.TexChunk :=
  let wordFreq := calculateWordFrequency
    (String.intercalate " " (chunks.map (fun c => c.content)))
  let queryVector := buildVector query wordFreq
  rankScoredChunks (chunks.map (fun c => (c, cosineSimilarity queryVector c.vector)))
    maxResults

/-- The score `getRelevantContextFresh` assigns to a chunk. -/
noncomputable def chunkScore (query : String) (chunks : List CodeChunker.TexChunk)
    (c : CodeChunker.TexChunk) : JsNum :=
  cosineSimilarity
    (buildVector query
      (calculateWordFrequency (String.intercalate " " (chunks.map (fun c => c.content)))))
    c.vector

end SemanticContextManager

namespace CursorSemanticIndex

/-- The closed `type` tag set of the semantic-index `CodeChunk`
(semanticEmbeddings.ts:12). -/
inductive SemChunkType where
  | fn | cls | sec | imp | defn | thm | prf | eqn
deriving DecidableEq, Repr

/-- `metadata` of a semantic-index chunk (semanticEmbeddings.ts:15-19); the
`section` field is called `sectionName` here (`section` is a Lean keyword). -/
structure SemChunkMeta where
  sectionName : Option String := none
  keywords : Option (List String) := none
  complexity : Option ℚ := none
deriving DecidableEq, Repr

/-- `CodeChunk` of `CursorSemanticIndex` (semanticEmbeddings.ts:6-20); the
`embedding` holds exact rationals. -/
structure SemChunk where
  id : String
  content : String
  file : String
  startLine : Nat
  endLine : Nat
  type : SemChunkType
  embedding : List ℚ
  lastModified : Nat
  metadata : SemChunkMeta
deriving DecidableEq, Repr

/-- `CursorSemanticIndex.cosineSimilarity` (semanticEmbeddings.ts:341-356).
This implementation does guard the zero denominator and returns `0`. -/
noncomputable def cosineSimilarity (vec1 vec2 : List ℚ) : ℝ :=
  if vec1.length ≠ vec2.length then 0
  else
    let denominator := Real.sqrt (dotQ vec1 vec1) * Real.sqrt (dotQ vec2 vec2)
    if denominator = 0 then 0 else (dotQ vec1 vec2 : ℝ) / denominator

/-- The `similarities` array of `findRelevantContext`
(semanticEmbeddings.ts:101-106): every stored embedding scored against the
query embedding, in store order. -/
noncomputable def simList (queryEmbedding : List ℚ)
    (embeddings : List (String × List ℚ)) : List (String × ℝ) :=
  embeddings.map (fun p => (p.1, cosineSimilarity queryEmbedding p.2))

/-- `similarities.sort((a, b) => b.similarity - a.similarity).slice(0, limit)`
(semanticEmbeddings.ts:108-110): stable descending sort, truncated. -/
noncomputable def rankedSims (queryEmbedding : List ℚ)
    (embeddings : List (String × List ℚ)) (limit : Nat) : List (String × ℝ) :=
  (sortComp (fun a b => decide (b.2 < a.2)) (simList queryEmbedding embeddings)).take limit

/-- The embedding path of `findRelevantContext` (semanticEmbeddings.ts:97-112)
after the query embedding has been fetched: score every stored embedding,
sort descending by similarity (stable), truncate to `limit`, and look the ids
up in the chunk index (`get(id)!` followed by `filter(Boolean)` drops missing
ids).  Note: no similarity threshold is applied on this path. -/
noncomputable def findRelevantCore (queryEmbedding : List ℚ)
    (embeddings : List (String × List ℚ)) (chunkIndex : List (String × SemChunk))
    (limit : Nat) : List SemChunk :=
  (rankedSims queryEmbedding embeddings limit).filterMap
    (fun sp => mapGet chunkIndex sp.1)

/-- The word-overlap score of `findRelevantContextFallback`
(semanticEmbeddings.ts:122-140). -/
def fallbackScore (queryWords : List String) (c : SemChunk) : ℚ :=
  let chunkWords := jsSplitWs (jsToLower c.content)
  ((queryWords.filter (fun w => chunkWords.contains w)).length : ℚ) /
    (max queryWords.length 1 : ℚ)

/-- `findRelevantContextFallback` (semanticEmbeddings.ts:122-140): the no-API-
key path, which does apply the `score > 0.1` threshold. -/
def findRelevantContextFallback (query : String)
    (chunkIndex : List (String × SemChunk)) (limit : Nat) : List SemChunk :=
  let queryWords := jsSplitWs (jsToLower query)
  let scoredChunks := (chunkIndex.map (fun p => (p.2, fallbackScore queryWords p.2))).filter
    (fun p => decide ((1 : ℚ) / 10 < p.2))
  ((sortComp (fun a b => decide (b.2 < a.2)) scoredChunks).take limit).map (fun p => p.1)

end CursorSemanticIndex

/-- `Map.prototype.set`: overwrite in place if the key is present (keeping its
position), otherwise append. -/
def mapSet (m : List (String × α)) (k : String) (v : α) : List (String × α) :=
  if (m.find? (fun p => decide (p.1 = k))).isSome then
    m.map (fun p => if p.1 = k then (k, v) else p)
  else m ++ [(k, v)]

namespace CursorCache

/-- The `type` tag of a `Change` (cursorCache.ts:8). -/
inductive ChangeType where
  | ins | del | rep
deriving DecidableEq, Repr

/-- `Change` (cursorCache.ts:7-13). -/
structure Change where
  type : ChangeType
  startLine : Nat
  endLine : Nat
  content : Option String
  timestamp : Nat
deriving DecidableEq, Repr

/-- `ProjectFile` (types.ts, as used by the sources). -/
structure ProjectFile where
  name : String
  content : String
  path : String
deriving DecidableEq, Repr

/-- `ProjectContext` (types.ts, as used by the sources). -/
structure ProjectContext where
  currentFile : String
  allTexFiles : List ProjectFile
  mainDocument : Option ProjectFile
deriving DecidableEq, Repr

/-- `CodeChunk` of the cache layer (cursorCache.ts:30-39). -/
structure CodeChunkC where
  id : String
  content : String
  file : String
  startLine : Nat
  endLine : Nat
  vector : List ℚ
  type : CursorSemanticIndex.SemChunkType
  lastModified : Nat
deriving DecidableEq, Repr

/-- `ContextQuery` (cursorCache.ts:15-20). -/
structure ContextQuery where
  content : String
  cursorPosition : Nat
  filePath : String
  projectContext : Option ProjectContext
deriving DecidableEq, Repr

/-- `Context` (cursorCache.ts:22-28). -/
structure Context where
  relevantChunks : List CodeChunkC
  localContext : String
  projectSummary : String
  timestamp : Nat
  queryHash : String
deriving DecidableEq, Repr

/-- `CacheEntry` (cursorCache.ts:48-52). -/
structure CacheEntry where
  context : Context
  lastAccess : Nat
  accessCount : Nat
deriving DecidableEq, Repr

/-- The tail of the `detectChanges` loop once the old lines are exhausted:
every remaining new line is an insertion. -/
def detectInserts (now : Nat) : Nat → List (List Char) → List Change
  | _, [] => []
  | i, n :: ns =>
    { type := ChangeType.ins, startLine := i, endLine := i,
      content := some ⟨n⟩, timestamp := now } :: detectInserts now (i + 1) ns

/-- The tail of the `detectChanges` loop once the new lines are exhausted:
every remaining old line is a deletion. -/
def detectDeletes (now : Nat) : Nat → List (List Char) → List Change
  | _, [] => []
  | i, _ :: os =>
    { type := ChangeType.del, startLine := i, endLine := i,
      content := none, timestamp := now } :: detectDeletes now (i + 1) os

/-- The loop of `FileWatcher.detectChanges` (cursorCache.ts:105-142) over the
two line arrays, at line index `i`. -/
def detectGo (now : Nat) : Nat → List (List Char) → List (List Char) → List Change
  | i, o :: os, n :: ns =>
    (if o ≠ n then
      [{ type := ChangeType.rep, startLine := i, endLine := i,
         content := some ⟨n⟩, timestamp := now }]
     else []) ++ detectGo now (i + 1) os ns
  | i, [], ns => detectInserts now i ns
  | i, os, [] => detectDeletes now i os

/-- `FileWatcher.detectChanges` (cursorCache.ts:105-142): line-by-line diff. -/
def detectChanges (now : Nat) (oldContent newContent : String) : List Change :=
  detectGo now 0 (splitOnNl oldContent.toList) (splitOnNl newContent.toList)

/-- The data of `IncrementalIndex` (cursorCache.ts:155-166). -/
structure IncIndex where
  chunks : List (String × CodeChunkC)
  fileChunks : List (String × List String)
  lastUpdate : Nat
deriving DecidableEq, Repr

/-- `IncrementalIndex.updateChunk` (cursorCache.ts:168-186): delete every
chunk of the file whose line range intersects the change (`reindexChunk` only
deletes; the re-chunking part is a stub in the source). -/
def updateChunk (idx : IncIndex) (filePath : String) (change : Change) (now : Nat) :
    IncIndex :=
  let chunkIds := (mapGet idx.fileChunks filePath).getD []
  let affected := chunkIds.filter (fun cid =>
    match mapGet idx.chunks cid with
    | none => false
    | some c => decide (change.startLine ≤ c.endLine) && decide (c.startLine ≤ change.endLine))
  { idx with
    chunks := idx.chunks.filter (fun p => !(affected.contains p.1))
    lastUpdate := now }

/-- `IncrementalIndex.setChunks` (cursorCache.ts:205-217). -/
def setChunks (idx : IncIndex) (cs : List CodeChunkC) : IncIndex :=
  cs.foldl (fun acc c =>
    { acc with
      chunks := mapSet acc.chunks c.id c
      fileChunks := mapSet acc.fileChunks c.file
        ((mapGet acc.fileChunks c.file).getD [] ++ [c.id]) })
    { idx with chunks := [], fileChunks := [] }

/-- The mutable state of a `CursorCache` instance together with its
`FileWatcher`'s `lastContent` map.  `lastContextQuery` / `lastContextResult`
are always assigned and cleared together in the source, so they are modelled
as one optional pair. -/
structure CacheState where
  watcherContent : List (String × String)
  incIndex : IncIndex
  cache : List (String × CacheEntry)
  lastContext : Option (ContextQuery × Context)
deriving DecidableEq, Repr

/-- `maxCacheSize` (cursorCache.ts:227). -/
def maxCacheSize : Nat := 100

/-- `cacheTimeout` (cursorCache.ts:228): five minutes in milliseconds. -/
def cacheTimeout : Nat := 300000

/-- `isIdenticalQuery` (cursorCache.ts:315-320).  The JS `===` on
`projectContext` is reference equality; it is modelled as structural equality
(identical references are structurally equal). -/
def isIdenticalQuery (q1 q2 : ContextQuery) : Bool :=
  decide (q1.filePath = q2.filePath) && decide (q1.cursorPosition = q2.cursorPosition) &&
  decide (q1.content = q2.content) && decide (q1.projectContext = q2.projectContext)

/-- `generateCacheKey` (cursorCache.ts:322-330). -/
def generateCacheKey (q : ContextQuery) : String :=
  let content := jsSliceFromEnd 300 q.content
  let projectHash :=
    match q.projectContext with
    | some pc => toString (hashString ((pc.mainDocument.map (fun f => f.name)).getD ""))
    | none => "no-project"
  q.filePath ++ ":" ++ toString q.cursorPosition ++ ":" ++
    toString (hashString content) ++ ":" ++ projectHash

/-- `isStale` (cursorCache.ts:342-348). -/
def isStale (s : CacheState) (now : Nat) (cacheKey : String) : Bool :=
  match mapGet s.cache cacheKey with
  | none => true
  | some entry => decide (cacheTimeout < now - entry.context.timestamp)

/-- `findRelevantChunksFromIndex` (cursorCache.ts:390-405): word-overlap
scoring with threshold 0.1, stable descending sort, top 5. -/
def findRelevantChunksFromIndex (chunks : List CodeChunkC) (query : String) :
    List CodeChunkC :=
  let queryWords := jsSplitWs (jsToLower query)
  let scoredChunks := chunks.map (fun c =>
    let chunkWords := jsSplitWs (jsToLower c.content)
    (c, ((queryWords.filter (fun w => chunkWords.contains w)).length : ℚ) /
        (max queryWords.length 1 : ℚ)))
  (((sortComp (fun a b => decide (b.2 < a.2))
      (scoredChunks.filter (fun p => decide ((1 : ℚ) / 10 < p.2)))).take 5)).map
    (fun p => p.1)

/-- `buildLocalContext` (cursorCache.ts:407-421). -/
def buildLocalContext (content : String) (cursorPosition : Nat) : String :=
  let beforeCursor := jsSliceFrom (cursorPosition - 600) content
  let afterCursor := jsSlice cursorPosition (cursorPosition + 200) content
  let beforeLines := splitOnNl beforeCursor.toList
  let afterLines := splitOnNl afterCursor.toList
  let contextBefore := joinNl (beforeLines.drop (beforeLines.length - 10))
  let contextAfter := joinNl (afterLines.take 5)
  ⟨contextBefore ++ contextAfter⟩

/-- `buildProjectSummary` (cursorCache.ts:423-454). -/
def buildProjectSummary (projectContext : Option ProjectContext) : String :=
  match projectContext with
  | none => ""
  | some pc =>
    match pc.mainDocument with
    | none => ""
    | some mainFile =>
      let content := mainFile.content
      let hasAbstract := jsIncludes "\\begin{abstract}" content || jsIncludes "\\abstract\x7b" content
      let hasIntroduction := jsIncludes "\\section{Introduction}" content
      let hasMethodology := jsIncludes "\\section{Method}" content || jsIncludes "\\section{Methodology}" content
      let hasResults := jsIncludes "\\section{Results}" content || jsIncludes "\\section{Experiments}" content
      let hasConclusion := jsIncludes "\\section{Conclusion}" content
      let sections :=
        (if hasAbstract then ["Abstract"] else []) ++
        (if hasIntroduction then ["Introduction"] else []) ++
        (if hasMethodology then ["Methodology"] else []) ++
        (if hasResults then ["Results"] else []) ++
        (if hasConclusion then ["Conclusion"] else [])
      let summary := "Main: " ++ mainFile.name
      let summary :=
        if sections.length > 0 then
          summary ++ " (" ++ String.intercalate ", " sections ++ ")"
        else summary
      if pc.allTexFiles.length > 1 then
        summary ++ " | " ++ toString pc.allTexFiles.length ++ " files"
      else summary

/-- Convert a semantic-index chunk to the cache chunk format
(cursorCache.ts:364-373); `chunk.embedding` is present, so the `vector` is
`Array.from(chunk.embedding).map(Number)`. -/
def convertSemChunk (c : CursorSemanticIndex.SemChunk) : CodeChunkC :=
  { id := c.id, content := c.content, file := c.file, startLine := c.startLine,
    endLine := c.endLine, vector := c.embedding, type := c.type,
    lastModified := c.lastModified }

/-- The same conversion applied to a fallback chunk from the incremental
index, whose `embedding` field is `undefined`, so `chunk.embedding || []`
gives the empty vector. -/
def convertIdxChunk (c : CodeChunkC) : CodeChunkC := { c with vector := [] }

/-- `buildContext` (cursorCache.ts:350-388).  The awaited network call
`semanticIndex.findRelevantContext(query.content.slice(-300), 5)` is the
`retrieve` parameter; `none` models the call throwing, which takes the
incremental-index fallback branch. -/
def buildContext (retrieve : String → Option (List CursorSemanticIndex.SemChunk))
    (now : Nat) (s : CacheState) (q : ContextQuery) : Context :=
  let chunks :=
    match retrieve (jsSliceFromEnd 300 q.content) with
    | some relevantChunks => relevantChunks.map convertSemChunk
    | none =>
      (findRelevantChunksFromIndex (s.incIndex.chunks.map (fun p => p.2))
        (jsSliceFromEnd 300 q.content)).map convertIdxChunk
  { relevantChunks := chunks
    localContext := buildLocalContext q.content q.cursorPosition
    projectSummary := buildProjectSummary q.projectContext
    timestamp := now
    queryHash := toString (hashString q.content) }

/-- The comparator of `cleanupCache` (cursorCache.ts:461-466): an entry `a`
sorts before `b` when `b.accessCount - a.accessCount` is negative, or the
counts tie and `a.lastAccess - b.lastAccess` is negative.  (Descending by
access count, ties oldest-first.) -/
def entryCmpLt (a b : String × CacheEntry) : Bool :=
  if b.2.accessCount ≠ a.2.accessCount then decide (b.2.accessCount < a.2.accessCount)
  else decide (a.2.lastAccess < b.2.lastAccess)

/-- `cleanupCache` (cursorCache.ts:456-472): when over capacity, sort the
entries with `entryCmpLt` (stable) and delete the keys of the first
`size - maxCacheSize` entries of the sorted array. -/
def cleanupCache (cache : List (String × CacheEntry)) : List (String × CacheEntry) :=
  if cache.length ≤ maxCacheSize then cache
  else
    let entries := sortComp entryCmpLt cache
    let toRemove := entries.take (cache.length - maxCacheSize)
    cache.filter (fun p => !(toRemove.any (fun q => decide (q.1 = p.1))))

/-- The table path of `getContext` (cursorCache.ts:280-312), taken when the
fast path misses: cache hit bumps the entry's bookkeeping; otherwise build,
insert, and clean up.  The `Bool` result records whether `buildContext` ran. -/
def getContextMain (retrieve : String → Option (List CursorSemanticIndex.SemChunk))
    (now : Nat) (s : CacheState) (q : ContextQuery) : Context × CacheState × Bool :=
  let cacheKey := generateCacheKey q
  match mapGet s.cache cacheKey with
  | some entry =>
    if !isStale s now cacheKey then
      let entry2 : CacheEntry :=
        { entry with lastAccess := now, accessCount := entry.accessCount + 1 }
      (entry.context,
       { s with cache := mapSet s.cache cacheKey entry2,
                lastContext := some (q, entry.context) }, false)
    else
      let context := buildContext retrieve now s q
      (context,
       { s with
          cache := cleanupCache (mapSet s.cache cacheKey
            { context := context, lastAccess := now, accessCount := 1 })
          lastContext := some (q, context) }, true)
  | none =>
    let context := buildContext retrieve now s q
    (context,
     { s with
        cache := cleanupCache (mapSet s.cache cacheKey
          { context := context, lastAccess := now, accessCount := 1 })
        lastContext := some (q, context) }, true)

/-- `getContext` (cursorCache.ts:274-313): the single-entry fast path first —
an identical remembered query returns the remembered result unchanged, with
no table lookup, no staleness check and no bookkeeping. -/
def getContext (retrieve : String → Option (List CursorSemanticIndex.SemChunk))
    (now : Nat) (s : CacheState) (q : ContextQuery) : Context × CacheState × Bool :=
  match s.lastContext with
  | some (lq, lr) =>
    if isIdenticalQuery lq q then (lr, s, false)
    else getContextMain retrieve now s q
  | none => getContextMain retrieve now s q

/-- `triggerFileChange` (cursorCache.ts:95-103 and 238-256): detect changes;
if any, record the new content, update the incremental index, drop every
cache entry whose context references a chunk of the file
(`invalidateRelatedCache`, cursorCache.ts:258-272), and clear the fast path
only when the remembered query's `filePath` equals the changed file. -/
def triggerFileChange (now : Nat) (s : CacheState) (filePath newContent : String) :
    CacheState :=
  let oldContent := (mapGet s.watcherContent filePath).getD ""
  let changes := detectChanges now oldContent newContent
  if changes.isEmpty then s
  else
    { watcherContent := mapSet s.watcherContent filePath newContent
      incIndex := changes.foldl (fun idx ch => updateChunk idx filePath ch now) s.incIndex
      cache := s.cache.filter (fun p =>
        !(p.2.context.relevantChunks.any (fun c => decide (c.file = filePath))))
      lastContext :=
        match s.lastContext with
        | some (lq, lr) => if lq.filePath = filePath then none else some (lq, lr)
        | none => none }

/-- A freshly constructed `CursorCache` (cursorCache.ts:232-236). -/
def initState (now : Nat) : CacheState :=
  { watcherContent := []
    incIndex := { chunks := [], fileChunks := [], lastUpdate := now }
    cache := []
    lastContext := none }

end CursorCache

namespace CursorContextRetriever

/-- `ImmediateContext` (cursorContext.ts:203-210). -/
structure ImmediateContext where
  beforeCursor : String
  afterCursor : String
  currentLine : String
  currentSection : Option String
  surroundingLines : List String
  cursorPosition : Nat
deriving DecidableEq, Repr

/-- `SemanticContext` (cursorContext.ts:212-218); the `any[]` chunks are the
semantic-index chunks. -/
structure SemanticContext where
  relevantChunks : List CursorSemanticIndex.SemChunk
  similarContent : List String
  relatedDefinitions : List String
  relatedTheorems : List String
  relatedEquations : List String
deriving DecidableEq, Repr

/-- `Section` of the document outline (cursorContext.ts:242-248). -/
structure OutlineSection where
  title : String
  level : Nat
  startLine : Nat
  endLine : Nat
  content : String
deriving DecidableEq, Repr

/-- `DocumentOutline` (cursorContext.ts:234-240); equations, figures, tables
and citations reuse the record shapes of the chunker. -/
structure DocumentOutline where
  sections : List OutlineSection
  equations : List CodeChunker.Equation
  figures : List CodeChunker.Figure
  tables : List CodeChunker.Figure
  citations : List CodeChunker.Citation
deriving DecidableEq, Repr

/-- `FileStructure` (cursorContext.ts:280-286). -/
structure FileStructure where
  totalFiles : Nat
  mainFile : String
  includedFiles : List String
  bibliographyFiles : List String
  imageFiles : List String
deriving DecidableEq, Repr

/-- `StructuralContext` (cursorContext.ts:220-226). -/
structure StructuralContext where
  imports : List String
  exports : List String
  dependencies : List String
  outline : DocumentOutline
  fileStructure : FileStructure
deriving DecidableEq, Repr

/-- `Edit` (cursorContext.ts:296-300). -/
structure EditRec where
  content : String
  timestamp : Nat
  filePath : String
deriving DecidableEq, Repr

/-- `RecentContext` (cursorContext.ts:228-232). -/
structure RecentContext where
  recentlyEdited : List String
  recentChanges : List CursorCache.Change
  lastEdits : List EditRec
deriving DecidableEq, Repr

/-- `ContextBundle` (cursorContext.ts:195-201). -/
structure ContextBundle where
  immediate : ImmediateContext
  semantic : SemanticContext
  structural : StructuralContext
  recent : RecentContext
  project : Option CursorCache.ProjectContext
deriving DecidableEq, Repr

/-- `TOKEN_BUDGET.total` (cursorContext.ts:303-310). -/
def TOKEN_BUDGET_total : Int := 4800

/-- The fixed `charToTokenRatio` of `estimateTokens` (cursorContext.ts:507). -/
def charsPerToken : ℚ := 4

/-- `estimateTokens` (cursorContext.ts:503-525): character counts divided by
the fixed ratio, summed over the immediate cursor context, the semantic
`similarContent` entries, and the outline sections, then `Math.ceil`ed.
Empty `beforeCursor`/`afterCursor` strings are falsy and skipped, which
contributes 0 either way. -/
def estimateTokens (context : ContextBundle) : Int :=
  let tokens : ℚ :=
    (if context.immediate.beforeCursor ≠ "" then
      (context.immediate.beforeCursor.length : ℚ) / charsPerToken else 0) +
    (if context.immediate.afterCursor ≠ "" then
      (context.immediate.afterCursor.length : ℚ) / charsPerToken else 0) +
    (context.semantic.similarContent.map (fun c => (c.length : ℚ) / charsPerToken)).sum +
    (context.structural.outline.sections.map
      (fun sec => (sec.content.length : ℚ) / charsPerToken)).sum
  ⌈tokens⌉

/-- `optimizeContext` (cursorContext.ts:474-498).  When the estimate exceeds
`maxTokens`, each over-long list is capped once (semantic chunks to 5 with
`similarContent` to 3, outline sections to 10, `recentlyEdited` to 3); the
`immediate` section is never touched, and the estimate is not re-checked
afterwards. -/
def optimizeContext (context : ContextBundle) (maxTokens : Int) : ContextBundle :=
  let currentTokens := estimateTokens context
  if maxTokens < currentTokens then
    let excess := currentTokens - maxTokens
    let semantic2 :=
      if 0 < excess ∧ 5 < context.semantic.relevantChunks.length then
        { context.semantic with
            relevantChunks := context.semantic.relevantChunks.take 5
            similarContent := context.semantic.similarContent.take 3 }
      else context.semantic
    let structural2 :=
      if 0 < excess ∧ 10 < context.structural.outline.sections.length then
        { context.structural with
            outline := { context.structural.outline with
              sections := context.structural.outline.sections.take 10 } }
      else context.structural
    let recent2 :=
      if 0 < excess ∧ 3 < context.recent.recentlyEdited.length then
        { context.recent with recentlyEdited := context.recent.recentlyEdited.take 3 }
      else context.recent
    { context with semantic := semantic2, structural := structural2, recent := recent2 }
  else context

end CursorContextRetriever

namespace Improvement

/-- `StreamChunk` (types.ts, as used by `getImprovementStream`). -/
inductive StreamChunk where
  | token (content : String)
  | error (content : String)
deriving DecidableEq, Repr

/-- The capacity message (improvement.ts:42 and 109). -/
def capacityMsg : String :=
  "Server is at capacity. Please select fewer words, try again later or use your own OpenAI API key."

/-- The abort message returned by the non-streaming `getImprovement`
(improvement.ts:46 and 68). -/
def abortMsg : String := "The request was aborted."

/-- The generic failure prefix (improvement.ts:70 and 157). -/
def errorMsgFor (e : String) : String :=
  "An error occurred while generating the content.\n" ++ e

/-- Outcome of the hosted `fetch` in `getImprovement` (improvement.ts:35-47):
a successful response with a JSON `content` field, a non-ok response, or a
rejected promise.  The `catch (AbortError)` clause catches every rejection,
abort included. -/
inductive FetchOutcome where
  | ok (body : String)
  | notOk
  | exn
deriving DecidableEq, Repr

/-- The hosted (no API key) path of `getImprovement` (improvement.ts:26-47);
`post` is `postProcessToken` (helper.ts, out of scope here). -/
def getImprovementHosted (post : String → String) : FetchOutcome → String
  | FetchOutcome.ok body => post body
  | FetchOutcome.notOk => capacityMsg
  | FetchOutcome.exn => abortMsg

/-- Outcome of the OpenAI call in `getImprovement` (improvement.ts:55-72):
a completion (whose `content` may be null), an `APIUserAbortError`, or any
other error. -/
inductive ApiOutcome where
  | ok (content : Option String)
  | abortError
  | otherError (msg : String)
deriving DecidableEq, Repr

/-- The API-key path of `getImprovement` (improvement.ts:48-72). -/
def getImprovementApi : ApiOutcome → String
  | ApiOutcome.ok c => c.getD ""
  | ApiOutcome.abortError => abortMsg
  | ApiOutcome.otherError m => errorMsgFor m

/-- Outcome of the hosted streaming request (improvement.ts:99-129): the
fetch itself may reject (`preExn`, swallowed by the empty catch), the
response may be non-ok, or the body is read chunk by chunk; `reads` are the
decoded chunks delivered before the loop ended, and `aborted` tells whether
it ended by cancellation (a rejected `reader.read()`, also swallowed by the
empty catch) or by `done`. -/
inductive StreamHostedOutcome where
  | preExn
  | notOk
  | stream (reads : List String) (aborted : Bool)
deriving DecidableEq, Repr

/-- The hosted (no API key) path of `getImprovementStream`
(improvement.ts:90-129): tokens are post-processed and empty ones skipped;
an abort yields nothing further and adds no error chunk. -/
def getImprovementStreamHosted (post : String → String) :
    StreamHostedOutcome → List StreamChunk
  | StreamHostedOutcome.preExn => []
  | StreamHostedOutcome.notOk => [StreamChunk.error capacityMsg]
  | StreamHostedOutcome.stream reads _ =>
    ((reads.map post).filter (fun t => t ≠ "")).map StreamChunk.token

/-- How the OpenAI token stream of `getImprovementStream` ends: normally, by
an `APIUserAbortError`, or by another error. -/
inductive StreamTerm where
  | done
  | abort
  | failed (msg : String)
deriving DecidableEq, Repr

/-- The API-key path of `getImprovementStream` (improvement.ts:130-159):
each chunk yields `delta?.content || ''`; an abort returns silently, any
other failure yields one error chunk. -/
def getImprovementStreamApi (parts : List (Option String)) :
    StreamTerm → List StreamChunk
  | StreamTerm.done => parts.map (fun p => StreamChunk.token (p.getD ""))
  | StreamTerm.abort => parts.map (fun p => StreamChunk.token (p.getD ""))
  | StreamTerm.failed m =>
    parts.map (fun p => StreamChunk.token (p.getD "")) ++ [StreamChunk.error (errorMsgFor m)]

end Improvement

namespace CodeChunker

/-- Does `s` contain an `\end{env\*?}` token anywhere? -/
def hasEndTokFor (env : String) (s : List Char) : Bool :=
  (List.range (s.length + 1)).any (fun j => (matchEndAt env s j).isSome)

/-- Does `s` contain a `\begin{env\*?}` token anywhere? -/
def hasBeginTokFor (env : String) (s : List Char) : Bool :=
  (List.range (s.length + 1)).any (fun i => (matchBeginAt env s i).isSome)

end CodeChunker

/-- The real value of a finite JS number (junk value 0 on non-finite ones). -/
noncomputable def jsVal : JsNum → ℝ
  | JsNum.num x => x
  | _ => 0

/-- Is a JS number finite? -/
def JsNum.isNum : JsNum → Bool
  | JsNum.num _ => true
  | _ => false

namespace CursorCache

/-- Does a cached context reference a chunk of file `f`? -/
def mentionsFile (ctx : Context) (f : String) : Bool :=
  ctx.relevantChunks.any (fun c => decide (c.file = f))

end CursorCache

namespace Examples

/-- A trivial context carrying only a timestamp (for cache-policy inputs). -/
def trivCtx (t : Nat) : CursorCache.Context :=
  { relevantChunks := [], localContext := "", projectSummary := "",
    timestamp := t, queryHash := "" }

/-- A 101-entry cache: `hot` has access count 5 (bumped by repeated hits) and
the oldest last-access time, every other entry has access count 1. -/
def overfullCache : List (String × CursorCache.CacheEntry) :=
  ("hot", { context := trivCtx 0, lastAccess := 0, accessCount := 5 }) ::
  (List.range 100).map (fun i =>
    ("k" ++ toString i, { context := trivCtx 0, lastAccess := i + 1, accessCount := 1 }))

/-- A semantic-index chunk whose source file is `f.tex`. -/
def chunkOfF : CursorSemanticIndex.SemChunk :=
  { id := "f.tex:0-1", content := "shared lemma", file := "f.tex", startLine := 0,
    endLine := 1, type := CursorSemanticIndex.SemChunkType.sec, embedding := [1],
    lastModified := 0, metadata := {} }

/-- A retrieval oracle that always returns the `f.tex` chunk. -/
def retrieveF : String → Option (List CursorSemanticIndex.SemChunk) :=
  fun _ => some [chunkOfF]

/-- A query issued while editing `a.tex` (not `f.tex`). -/
def queryOnA : CursorCache.ContextQuery :=
  { content := "x", cursorPosition := 0, filePath := "a.tex", projectContext := none }

end Examples

/-- Equality of (idealised) JS numbers is classically decidable; used only in
specification statements about score ties. -/
noncomputable instance : DecidableEq JsNum := fun _ _ => Classical.dec _

namespace Examples

/-- An empty immediate context. -/
def emptyImmediate : CursorContextRetriever.ImmediateContext :=
  { beforeCursor := "", afterCursor := "", currentLine := "", currentSection := none,
    surroundingLines := [], cursorPosition := 0 }

/-- An empty structural context. -/
def emptyStructural : CursorContextRetriever.StructuralContext :=
  { imports := [], exports := [], dependencies := [],
    outline := { sections := [], equations := [], figures := [], tables := [], citations := [] },
    fileStructure := { totalFiles := 1, mainFile := "main.tex", includedFiles := [],
                       bibliographyFiles := [], imageFiles := [] } }

/-- An empty recent-edits context. -/
def emptyRecent : CursorContextRetriever.RecentContext :=
  { recentlyEdited := [], recentChanges := [], lastEdits := [] }

/-- An empty semantic context. -/
def emptySemantic : CursorContextRetriever.SemanticContext :=
  { relevantChunks := [], similarContent := [], relatedDefinitions := [],
    relatedTheorems := [], relatedEquations := [] }

/-- The semantic context of `smallOverBundle`: one chunk, one 8-character
similar-content entry. -/
def smallSemantic : CursorContextRetriever.SemanticContext :=
  { relevantChunks := [chunkOfF], similarContent := ["aaaaaaaa"],
    relatedDefinitions := [], relatedTheorems := [], relatedEquations := [] }

/-- An entirely empty context bundle. -/
def emptyBundle : CursorContextRetriever.ContextBundle :=
  { immediate := emptyImmediate, semantic := emptySemantic,
    structural := emptyStructural, recent := emptyRecent, project := none }

/-- A bundle with one semantic match of 8 characters (2 estimated tokens) and
nothing else; with a budget of 1 token it is over budget, yet no trimming
condition fires (only 1 relevant chunk, no outline, no recent edits). -/
def smallOverBundle : CursorContextRetriever.ContextBundle :=
  { immediate := emptyImmediate, semantic := smallSemantic,
    structural := emptyStructural, recent := emptyRecent, project := none }

end Examples

namespace Examples

/-- A dense-index chunk stored for id `c1` with embedding `[1, 0]`. -/
def chunkC1 : CursorSemanticIndex.SemChunk :=
  { id := "c1", content := "orthogonal text", file := "b.tex", startLine := 0,
    endLine := 0, type := CursorSemanticIndex.SemChunkType.sec,
    embedding := [1, 0], lastModified := 0, metadata := {} }

/-- The embeddings store holding only `c1`. -/
def embsC5 : List (String × List ℚ) := [("c1", [1, 0])]

/-- The chunk index holding only `c1`. -/
def cidxC5 : List (String × CursorSemanticIndex.SemChunk) := [("c1", chunkC1)]

end Examples

/-! ### Generic lemmas about the JS-sort model and the regex-scan model -/

theorem mem_insComp {lt : α → α → Bool} {x a : α} {l : List α} :
    a ∈ insComp lt x l ↔ a = x ∨ a ∈ l := by
  induction l with
  | nil => simp [insComp]
  | cons y ys ih =>
    simp only [insComp]
    split
    · simp only [List.mem_cons, ih]
      tauto
    · simp only [List.mem_cons]

theorem insComp_perm (lt : α → α → Bool) (x : α) (l : List α) :
    (insComp lt x l).Perm (x :: l) := by
  induction l with
  | nil => simp [insComp]
  | cons y ys ih =>
    simp only [insComp]
    split
    · exact (ih.cons y).trans (List.Perm.swap x y ys)
    · exact List.Perm.refl _

theorem sortComp_perm (lt : α → α → Bool) (l : List α) :
    (sortComp lt l).Perm l := by
  induction l with
  | nil => simp [sortComp]
  | cons x xs ih =>
    exact (insComp_perm lt x (sortComp lt xs)).trans (ih.cons x)

theorem mem_sortComp {lt : α → α → Bool} {l : List α} {a : α} :
    a ∈ sortComp lt l ↔ a ∈ l :=
  (sortComp_perm lt l).mem_iff

theorem length_sortComp (lt : α → α → Bool) (l : List α) :
    (sortComp lt l).length = l.length :=
  (sortComp_perm lt l).length_eq

theorem pairwise_insComp {R : α → α → Prop} {lt : α → α → Bool} {x : α} {l : List α}
    (h1 : ∀ a b, lt a b = true → R a b)
    (h2 : ∀ a b, lt a b = false → R b a)
    (h3 : Transitive R)
    (hl : l.Pairwise R) : (insComp lt x l).Pairwise R := by
  induction l with
  | nil => simp [insComp]
  | cons y ys ih =>
    rcases List.pairwise_cons.mp hl with ⟨hy, hys⟩
    simp only [insComp]
    split
    · rename_i hlt
      refine List.pairwise_cons.mpr ⟨?_, ih hys⟩
      intro z hz
      rcases mem_insComp.mp hz with rfl | hz
      · exact h1 y z hlt
      · exact hy z hz
    · rename_i hlt
      refine List.pairwise_cons.mpr ⟨?_, hl⟩
      intro z hz
      rcases List.mem_cons.mp hz with rfl | hz
      · exact h2 z x (Bool.eq_false_iff.mpr hlt ▸ rfl)
      · exact h3 (h2 y x (by simpa using hlt)) (hy z hz)

theorem pairwise_sortComp {R : α → α → Prop} {lt : α → α → Bool}
    (h1 : ∀ a b, lt a b = true → R a b)
    (h2 : ∀ a b, lt a b = false → R b a)
    (h3 : Transitive R)
    (l : List α) : (sortComp lt l).Pairwise R := by
  induction l with
  | nil => simp [sortComp]
  | cons x xs ih => exact pairwise_insComp h1 h2 h3 ih

theorem insComp_congr {lt lt2 : α → α → Bool} {x : α} {l : List α}
    (h : ∀ a ∈ l, lt a x = lt2 a x) : insComp lt x l = insComp lt2 x l := by
  induction l with
  | nil => rfl
  | cons y ys ih =>
    simp only [insComp]
    rw [h y (List.mem_cons_self y ys)]
    split
    · rw [ih (fun a ha => h a (List.mem_cons_of_mem y ha))]
    · rfl

theorem sortComp_congr {lt lt2 : α → α → Bool} {l : List α}
    (h : ∀ a ∈ l, ∀ b ∈ l, lt a b = lt2 a b) : sortComp lt l = sortComp lt2 l := by
  induction l with
  | nil => rfl
  | cons x xs ih =>
    simp only [sortComp]
    rw [ih (fun a ha b hb =>
      h a (List.mem_cons_of_mem x ha) b (List.mem_cons_of_mem x hb))]
    exact insComp_congr (fun a ha =>
      h a (List.mem_cons_of_mem x (mem_sortComp.mp ha)) x (List.mem_cons_self x xs))

theorem filter_insComp_of_tied {lt : α → α → Bool} {p : α → Bool} {x : α} {l : List α}
    (hp : ∀ a b, p a = true → p b = true → lt a b = false) :
    (insComp lt x l).filter p =
      if p x then x :: l.filter p else l.filter p := by
  induction l with
  | nil => by_cases hpx : p x = true <;> simp [insComp, hpx]
  | cons y ys ih =>
    simp only [insComp]
    split
    · rename_i hlt
      by_cases hpx : p x = true
      · have hpy : p y = false := by
          rcases Bool.eq_false_or_eq_true (p y) with h | h
          · exact absurd (hp y x h hpx) (by simp [hlt])
          · exact h
        simp [List.filter_cons, hpy, hpx, ih]
      · have hpx2 : p x = false := Bool.eq_false_iff.mpr hpx
        simp [List.filter_cons, hpx2, ih]
    · by_cases hpx : p x = true <;> simp [List.filter_cons, hpx]

theorem filter_sortComp_of_tied {lt : α → α → Bool} {p : α → Bool}
    (hp : ∀ a b, p a = true → p b = true → lt a b = false) (l : List α) :
    (sortComp lt l).filter p = l.filter p := by
  induction l with
  | nil => rfl
  | cons x xs ih =>
    simp only [sortComp]
    rw [filter_insComp_of_tied hp, ih, List.filter_cons]

theorem filter_take_append (p : α → Bool) (n : Nat) (l : List α) :
    (l.take n).filter p ++ (l.drop n).filter p = l.filter p := by
  rw [← List.filter_append, List.take_append_drop]

theorem filter_map_comm (f : α → β) (p : β → Bool) (l : List α) :
    (l.map f).filter p = (l.filter (fun a => p (f a))).map f := by
  induction l with
  | nil => rfl
  | cons x xs ih =>
    simp only [List.map, List.filter_cons]
    by_cases hx : p (f x) = true <;> simp [hx, ih]

theorem filter_map_fst {γ δ : Type _} (sc : γ → δ) (q : δ → Bool)
    (l : List (γ × δ)) (hl : ∀ pr ∈ l, pr.2 = sc pr.1) :
    (l.map Prod.fst).filter (fun c => q (sc c)) =
      (l.filter (fun pr => q pr.2)).map Prod.fst := by
  induction l with
  | nil => rfl
  | cons x xs ih =>
    have hx := hl x (List.mem_cons_self x xs)
    have ihx := ih (fun pr hpr => hl pr (List.mem_cons_of_mem x hpr))
    simp only [List.map, List.filter_cons, hx]
    by_cases hq : q (sc x.1) = true <;> simp [hq, ihx]

theorem pairwise_filterMap_of_mem {R : α → α → Prop} {S : β → β → Prop}
    {g : α → Option β} {l : List α}
    (hR : l.Pairwise R)
    (himp : ∀ a b x y, a ∈ l → b ∈ l → R a b → g a = some x → g b = some y → S x y) :
    (l.filterMap g).Pairwise S := by
  induction l with
  | nil => simp
  | cons a as ih =>
    rcases List.pairwise_cons.mp hR with ⟨ha, has⟩
    have ih2 := ih has (fun a2 b x y ha2 hb hr hga hgb =>
      himp a2 b x y (List.mem_cons_of_mem a ha2) (List.mem_cons_of_mem a hb) hr hga hgb)
    rw [List.filterMap_cons]
    split
    · exact ih2
    · rename_i x hx
      refine List.pairwise_cons.mpr ⟨?_, ih2⟩
      intro y hy
      rcases List.mem_filterMap.mp hy with ⟨b, hb, hgb⟩
      exact himp a b x y (List.mem_cons_self a as) (List.mem_cons_of_mem a hb)
        (ha b hb) hx hgb

theorem scanFirst_some {f : Nat → Option α} {pos count i : Nat} {a : α}
    (h : scanFirst f pos count = some (i, a)) : pos ≤ i ∧ f i = some a := by
  rcases List.exists_of_findSome?_eq_some h with ⟨j, hj, hfj⟩
  rcases List.mem_range'.mp hj with ⟨k, _, rfl⟩
  cases hfj2 : f (pos + 1 * k) with
  | none => rw [hfj2] at hfj; simp at hfj
  | some b =>
    rw [hfj2] at hfj
    simp only [Option.map_some'] at hfj
    cases hfj
    exact ⟨Nat.le_add_right pos (1 * k), hfj2⟩

theorem scanFirst_none {f : Nat → Option α} {pos count : Nat}
    (h : ∀ i, f i = none) : scanFirst f pos count = none := by
  unfold scanFirst
  rw [List.findSome?_eq_none_iff]
  intro x _
  rw [h x]
  rfl

/-! ### Lemmas about the chunk extractor -/

namespace CodeChunker

theorem lineOfIndex_mono (s : List Char) {i j : Nat} (h : i ≤ j) :
    lineOfIndex s i ≤ lineOfIndex s j := by
  unfold lineOfIndex
  have heq : s.take i = (s.take j).take i := by
    rw [List.take_take, Nat.min_eq_left h]
  rw [heq]
  exact (List.take_sublist i (s.take j)).count_le '\n'

theorem matchBeginAt_le {env : String} {s : List Char} {i bs : Nat}
    (h : matchBeginAt env s i = some bs) : i ≤ bs := by
  unfold matchBeginAt at h
  split at h
  · cases h; exact Nat.le_add_right ..
  · split at h
    · cases h; exact Nat.le_add_right ..
    · cases h

theorem matchEndAt_le {env : String} {s : List Char} {j st : Nat}
    (h : matchEndAt env s j = some st) : j ≤ st := by
  unfold matchEndAt at h
  split at h
  · cases h; exact Nat.le_add_right ..
  · split at h
    · cases h; exact Nat.le_add_right ..
    · cases h

theorem endTok_ne_nil (env : String) : endTok env ≠ [] := by
  unfold endTok
  intro h
  have : ("\\end\x7b" ++ env ++ "\x7d").data = "\\end\x7b".data ++ env.data ++ "\x7d".data := by
    simp [String.data_append]
  rw [String.toList] at h
  rw [this] at h
  simp at h

theorem endTokStar_ne_nil (env : String) : endTokStar env ≠ [] := by
  unfold endTokStar
  intro h
  have : ("\\end\x7b" ++ env ++ "*\x7d").data = "\\end\x7b".data ++ env.data ++ "*\x7d".data := by
    simp [String.data_append]
  rw [String.toList] at h
  rw [this] at h
  simp at h

theorem tokenAt_lt_length {pat s : List Char} {j : Nat}
    (hne : pat ≠ []) (h : tokenAt pat s j = true) : j < s.length := by
  unfold tokenAt at h
  cases pat with
  | nil => exact absurd rfl hne
  | cons p ps =>
    cases hdrop : s.drop j with
    | nil => rw [hdrop] at h; simp [startsWith] at h
    | cons c cs =>
      by_contra hge
      have : s.drop j = [] := List.drop_eq_nil_iff_le.mpr (Nat.le_of_not_lt hge)
      rw [this] at hdrop
      cases hdrop

theorem matchEndAt_hasEndTok {env : String} {s : List Char} {j st : Nat}
    (h : matchEndAt env s j = some st) : hasEndTokFor env s = true := by
  have hj : j < s.length := by
    unfold matchEndAt at h
    split at h
    · exact tokenAt_lt_length (endTokStar_ne_nil env) (by assumption)
    · split at h
      · exact tokenAt_lt_length (endTok_ne_nil env) (by assumption)
      · cases h
  unfold hasEndTokFor
  rw [List.any_eq_true]
  exact ⟨j, List.mem_range.mpr (Nat.lt_succ_of_lt hj), by rw [h]; rfl⟩

theorem hasEndTokFor_false_matchEndAt {env : String} {s : List Char}
    (h : hasEndTokFor env s = false) : ∀ j, matchEndAt env s j = none := by
  intro j
  cases hm : matchEndAt env s j with
  | none => rfl
  | some st => rw [matchEndAt_hasEndTok hm] at h; cases h

theorem findBeginFrom_spec {envs : List String} {s : List Char} {pos i bs : Nat}
    {e : String} (h : findBeginFrom envs s pos = some (i, e, bs)) :
    pos ≤ i ∧ e ∈ envs ∧ matchBeginAt e s i = some bs := by
  unfold findBeginFrom at h
  rcases Option.map_eq_some'.mp h with ⟨⟨i2, p⟩, hscan, heq⟩
  cases heq
  rcases scanFirst_some hscan with ⟨hpos, hf⟩
  rcases List.exists_of_findSome?_eq_some hf with ⟨env, henv, hmb⟩
  rcases Option.map_eq_some'.mp hmb with ⟨bs2, hmb2, heq2⟩
  cases heq2
  exact ⟨hpos, henv, hmb2⟩

theorem findEndFrom_spec {env : String} {s : List Char} {pos j st : Nat}
    (h : findEndFrom env s pos = some (j, st)) :
    pos ≤ j ∧ matchEndAt env s j = some st := by
  unfold findEndFrom at h
  exact scanFirst_some h

theorem findEnvMatch_spec {fuel : Nat} {envs : List String} {s : List Char}
    {pos : Nat} {m : EnvMatch} (h : findEnvMatch fuel envs s pos = some m) :
    m.env ∈ envs ∧ m.start ≤ m.bodyStart ∧ m.bodyStart ≤ m.bodyEnd ∧
      m.bodyEnd ≤ m.stop ∧ matchEndAt m.env s m.bodyEnd = some m.stop := by
  induction fuel generalizing pos with
  | zero => cases h
  | succ fuel ih =>
    unfold findEnvMatch at h
    cases hb : findBeginFrom envs s pos with
    | none => rw [hb] at h; cases h
    | some t =>
      obtain ⟨i, e, bs⟩ := t
      rw [hb] at h
      dsimp only at h
      cases he : findEndFrom e s bs with
      | none => rw [he] at h; exact ih h
      | some u =>
        obtain ⟨j, st⟩ := u
        rw [he] at h
        cases h
        rcases findBeginFrom_spec hb with ⟨_, henv, hmb⟩
        rcases findEndFrom_spec he with ⟨hbsj, hme⟩
        exact ⟨henv, matchBeginAt_le hmb, hbsj, matchEndAt_le hme, hme⟩

theorem scanEnvs_spec {fuel : Nat} {envs : List String} {s : List Char}
    {pos : Nat} {m : EnvMatch} (h : m ∈ scanEnvs fuel envs s pos) :
    m.env ∈ envs ∧ m.start ≤ m.bodyStart ∧ m.bodyStart ≤ m.bodyEnd ∧
      m.bodyEnd ≤ m.stop ∧ matchEndAt m.env s m.bodyEnd = some m.stop := by
  induction fuel generalizing pos with
  | zero => cases h
  | succ fuel ih =>
    unfold scanEnvs at h
    cases hf : findEnvMatch (s.length + 1) envs s pos with
    | none => rw [hf] at h; cases h
    | some m2 =>
      rw [hf] at h
      rcases List.mem_cons.mp h with rfl | h2
      · exact findEnvMatch_spec hf
      · exact ih h2

theorem envMatches_spec {envs : List String} {s : List Char} {m : EnvMatch}
    (h : m ∈ envMatches envs s) :
    m.env ∈ envs ∧ m.start ≤ m.stop ∧ matchEndAt m.env s m.bodyEnd = some m.stop := by
  rcases scanEnvs_spec h with ⟨henv, h1, h2, h3, hme⟩
  exact ⟨henv, Nat.le_trans h1 (Nat.le_trans h2 h3), hme⟩

theorem envMatches_env_closed {envs : List String} {s : List Char} {E : String}
    (hE : hasEndTokFor E s = false) :
    ∀ m ∈ envMatches envs s, m.env ≠ E := by
  intro m hm heq
  rcases envMatches_spec hm with ⟨_, _, hme⟩
  have htrue := matchEndAt_hasEndTok hme
  rw [heq] at htrue
  rw [htrue] at hE
  cases hE

theorem envMatches_nil_of_no_end {envs : List String} {s : List Char}
    (hE : ∀ e ∈ envs, hasEndTokFor e s = false) :
    envMatches envs s = [] := by
  cases hm : envMatches envs s with
  | nil => rfl
  | cons m ms =>
    have hmem : m ∈ envMatches envs s := by rw [hm]; exact List.mem_cons_self m ms
    rcases envMatches_spec hmem with ⟨henv, _, hme⟩
    have htrue := matchEndAt_hasEndTok hme
    rw [hE m.env henv] at htrue
    cases htrue

end CodeChunker

namespace CodeChunker

theorem extractSectionsGo_bounds (lines : List (List Char)) :
    ∀ (i lastIdx : Nat) (cur : Option SectionRec),
      (∀ sec, cur = some sec → sec.startLine < i) →
      ∀ sec ∈ extractSectionsGo lines i lastIdx cur,
        sec.startLine ≤ sec.endLine := by
  induction lines with
  | nil =>
    intro i lastIdx cur hcur sec hsec
    cases cur with
    | none => cases hsec
    | some c =>
      simp only [extractSectionsGo] at hsec
      rcases List.mem_singleton.mp hsec with rfl
      have := hcur c rfl
      simp only
      omega
  | cons line rest ih =>
    intro i lastIdx cur hcur sec hsec
    simp only [extractSectionsGo] at hsec
    cases hexec : execSection line lastIdx with
    | some t =>
      obtain ⟨j, nm, title, stop⟩ := t
      rw [hexec] at hsec
      rcases List.mem_append.mp hsec with hclosed | hrec
      · cases cur with
        | none => cases hclosed
        | some c =>
          rcases List.mem_singleton.mp hclosed with rfl
          have := hcur c rfl
          simp only
          omega
      · exact ih (i + 1) stop _
          (by intro s hs; cases hs; exact Nat.lt_succ_self i) sec hrec
    | none =>
      rw [hexec] at hsec
      refine ih (i + 1) 0 _ ?_ sec hsec
      intro s hs
      cases cur with
      | none => cases hs
      | some c =>
        simp only [Option.map_some'] at hs
        cases hs
        have := hcur c rfl
        simp only
        omega

theorem extractSections_bounds (content : String) :
    ∀ sec ∈ extractSections content, sec.startLine ≤ sec.endLine := by
  intro sec hsec
  exact extractSectionsGo_bounds _ 0 0 none (by intro s hs; cases hs) sec hsec

theorem extractEquations_bounds (content : String) :
    ∀ eq ∈ extractEquations content, eq.startLine ≤ eq.endLine := by
  intro eq heq
  unfold extractEquations at heq
  rcases List.mem_map.mp heq with ⟨m, hm, rfl⟩
  rcases envMatches_spec hm with ⟨_, hle, _⟩
  exact lineOfIndex_mono _ hle

theorem extractFigures_bounds (content : String) :
    ∀ fig ∈ extractFigures content, fig.startLine ≤ fig.endLine := by
  intro fig hfig
  unfold extractFigures at hfig
  rcases List.mem_map.mp hfig with ⟨m, hm, rfl⟩
  rcases envMatches_spec hm with ⟨_, hle, _⟩
  exact lineOfIndex_mono _ hle

theorem extractTables_bounds (content : String) :
    ∀ tab ∈ extractTables content, tab.startLine ≤ tab.endLine := by
  intro tab htab
  unfold extractTables at htab
  rcases List.mem_map.mp htab with ⟨m, hm, rfl⟩
  rcases envMatches_spec hm with ⟨_, hle, _⟩
  exact lineOfIndex_mono _ hle

theorem extractDefinitions_bounds (content : String) :
    ∀ d ∈ extractDefinitions content, d.startLine ≤ d.endLine := by
  intro d hd
  unfold extractDefinitions at hd
  rcases List.mem_map.mp hd with ⟨m, hm, rfl⟩
  rcases envMatches_spec hm with ⟨_, hle, _⟩
  exact lineOfIndex_mono _ hle

theorem extractTheorems_bounds (content : String) :
    ∀ t ∈ extractTheorems content, t.startLine ≤ t.endLine := by
  intro t ht
  unfold extractTheorems at ht
  rcases List.mem_map.mp ht with ⟨m, hm, rfl⟩
  rcases envMatches_spec hm with ⟨_, hle, _⟩
  exact lineOfIndex_mono _ hle

theorem extractProofs_bounds (content : String) :
    ∀ pr ∈ extractProofs content, pr.startLine ≤ pr.endLine := by
  intro pr hpr
  unfold extractProofs at hpr
  rcases List.mem_map.mp hpr with ⟨m, hm, rfl⟩
  rcases envMatches_spec hm with ⟨_, hle, _⟩
  exact lineOfIndex_mono _ hle

theorem extractCitations_bounds (content : String) :
    ∀ cit ∈ extractCitations content, cit.startLine ≤ cit.endLine := by
  intro cit hcit
  unfold extractCitations at hcit
  rcases List.mem_flatMap.mp hcit with ⟨p, hp, hcit2⟩
  rcases List.mem_flatMap.mp hcit2 with ⟨kp, _, hcit3⟩
  rcases List.mem_map.mp hcit3 with ⟨k, _, rfl⟩
  obtain ⟨i, line⟩ := p
  have hi : i < (splitOnNl content.toList).length := (List.mem_enum hp).1
  simp only
  omega

end CodeChunker

/-- Claim C6: for every content string and source file path (and every clock
value), the chunk extractor `chunkTexFile` terminates without throwing (it is
a total Lean function), and every chunk in the returned list has its `file`
field equal to the given source file path and satisfies
`startLine ≤ endLine`. -/
theorem claim_C6_chunk_extractor_total_and_bounded
    (now : Nat) (content filePath : String) :
    (CodeChunker.chunkTexFile now content filePath).all
      (fun c => decide (c.file = filePath) && decide (c.startLine ≤ c.endLine)) = true := by
  rw [List.all_eq_true]
  intro c hc
  rw [Bool.and_eq_true, decide_eq_true_eq, decide_eq_true_eq]
  simp only [CodeChunker.chunkTexFile, List.mem_append] at hc
  rcases hc with ((((((hc | hc) | hc) | hc) | hc) | hc) | hc) | hc
  · rcases List.mem_map.mp hc with ⟨x, hx, rfl⟩
    exact ⟨rfl, CodeChunker.extractSections_bounds content x hx⟩
  · rcases List.mem_map.mp hc with ⟨x, hx, rfl⟩
    exact ⟨rfl, CodeChunker.extractEquations_bounds content x hx⟩
  · rcases List.mem_map.mp hc with ⟨x, hx, rfl⟩
    exact ⟨rfl, CodeChunker.extractFigures_bounds content x hx⟩
  · rcases List.mem_map.mp hc with ⟨x, hx, rfl⟩
    exact ⟨rfl, CodeChunker.extractTables_bounds content x hx⟩
  · rcases List.mem_map.mp hc with ⟨x, hx, rfl⟩
    exact ⟨rfl, CodeChunker.extractCitations_bounds content x hx⟩
  · rcases List.mem_map.mp hc with ⟨x, hx, rfl⟩
    exact ⟨rfl, CodeChunker.extractDefinitions_bounds content x hx⟩
  · rcases List.mem_map.mp hc with ⟨x, hx, rfl⟩
    exact ⟨rfl, CodeChunker.extractTheorems_bounds content x hx⟩
  · rcases List.mem_map.mp hc with ⟨x, hx, rfl⟩
    exact ⟨rfl, CodeChunker.extractProofs_bounds content x hx⟩

/-- Claim C7: a `\begin` marker of an environment with no matching `\end`
marker never produces a chunk for that environment, and extraction raises no
error (all extractors are total Lean functions).  First conjunct: in any
environment family, no regex match is ever emitted for an environment `E`
without a closing token in the content.  Remaining conjuncts: a content
string containing a `\begin{figure}` (resp. `\begin{proof}`) marker but no
closing token yields no figure (resp. proof) chunk at all, and a content
with no closing token of any equation environment yields no equation chunk. -/
theorem claim_C7_unclosed_environments_no_chunk :
    (∀ (envs : List String) (E : String) (s : List Char),
        CodeChunker.hasEndTokFor E s = false →
        ∀ m ∈ CodeChunker.envMatches envs s, m.env ≠ E) ∧
    (∀ content : String,
        CodeChunker.hasBeginTokFor "figure" content.toList = true →
        CodeChunker.hasEndTokFor "figure" content.toList = false →
        CodeChunker.extractFigures content = []) ∧
    (∀ content : String,
        CodeChunker.hasBeginTokFor "proof" content.toList = true →
        CodeChunker.hasEndTokFor "proof" content.toList = false →
        CodeChunker.extractProofs content = []) ∧
    (∀ content : String,
        (∀ e ∈ CodeChunker.equationEnvs, CodeChunker.hasEndTokFor e content.toList = false) →
        CodeChunker.extractEquations content = []) := by
  refine ⟨?_, ?_, ?_, ?_⟩
  · intro envs E s hE m hm
    exact CodeChunker.envMatches_env_closed hE m hm
  · intro content _ hend
    unfold CodeChunker.extractFigures
    dsimp only
    rw [CodeChunker.envMatches_nil_of_no_end]
    · rfl
    · intro e he
      rcases List.mem_singleton.mp he with rfl
      exact hend
  · intro content _ hend
    unfold CodeChunker.extractProofs
    dsimp only
    rw [CodeChunker.envMatches_nil_of_no_end]
    · rfl
    · intro e he
      rcases List.mem_singleton.mp he with rfl
      exact hend
  · intro content hend
    unfold CodeChunker.extractEquations
    dsimp only
    rw [CodeChunker.envMatches_nil_of_no_end hend]
    rfl

/-- Witness for C7 at a concrete input: `"\begin{figure} x"` contains an
unclosed figure environment and extraction returns no chunk. -/
theorem claim_C7_witness :
    CodeChunker.hasBeginTokFor "figure" "\\begin{figure} x".toList = true ∧
    CodeChunker.hasEndTokFor "figure" "\\begin{figure} x".toList = false ∧
    CodeChunker.extractFigures "\\begin{figure} x" = [] :=
  ⟨by decide, by decide,
    claim_C7_unclosed_environments_no_chunk.2.1 "\\begin{figure} x" (by decide) (by decide)⟩

/-! ### Lemmas about the dot product and cosine similarity -/

theorem dotQ_self_nonneg (v : List ℚ) : 0 ≤ dotQ v v := by
  induction v with
  | nil => simp [dotQ]
  | cons a as ih =>
    simp only [dotQ]
    nlinarith [mul_self_nonneg a]

theorem dotQ_self_pos {v : List ℚ} (h : ∃ x ∈ v, x ≠ 0) : 0 < dotQ v v := by
  induction v with
  | nil => simp at h
  | cons a as ih =>
    simp only [dotQ]
    rcases h with ⟨x, hx, hxne⟩
    rcases List.mem_cons.mp hx with rfl | hxas
    · nlinarith [dotQ_self_nonneg as, mul_self_pos.mpr hxne]
    · nlinarith [ih ⟨x, hxas, hxne⟩, mul_self_nonneg a]

theorem dotQ_self_eq_zero {v : List ℚ} (h : dotQ v v = 0) : ∀ x ∈ v, x = 0 := by
  induction v with
  | nil => simp
  | cons a as ih =>
    simp only [dotQ] at h
    have ha : a * a = 0 := by nlinarith [dotQ_self_nonneg as, mul_self_nonneg a]
    have has : dotQ as as = 0 := by nlinarith [dotQ_self_nonneg as, mul_self_nonneg a]
    intro x hx
    rcases List.mem_cons.mp hx with rfl | hxas
    · exact mul_self_eq_zero.mp ha
    · exact ih has x hxas

theorem dotQ_zero_left {v : List ℚ} (h : ∀ x ∈ v, x = 0) (w : List ℚ) :
    dotQ v w = 0 := by
  induction v generalizing w with
  | nil => simp [dotQ]
  | cons a as ih =>
    cases w with
    | nil => simp [dotQ]
    | cons b bs =>
      simp only [dotQ]
      rw [h a (List.mem_cons_self a as),
        ih (fun x hx => h x (List.mem_cons_of_mem a hx)) bs]
      ring

theorem dotQ_comm (v w : List ℚ) : dotQ v w = dotQ w v := by
  induction v generalizing w with
  | nil => cases w <;> simp [dotQ]
  | cons a as ih =>
    cases w with
    | nil => simp [dotQ]
    | cons b bs => simp only [dotQ]; rw [ih bs]; ring

/-- Claim C4, counterexample to the claim as stated: the lexical-mode
`SemanticContextManager.cosineSimilarity` does divide by zero on a zero-norm
argument — `cosineSimilarity [0] [0]` is `0/0 = NaN`, not the number `0`. -/
theorem claim_C4_counterexample_lexical_nan :
    SemanticContextManager.cosineSimilarity [(0 : ℚ)] [(0 : ℚ)] = JsNum.nan ∧
    JsNum.nan ≠ JsNum.num 0 := by
  constructor
  · unfold SemanticContextManager.cosineSimilarity
    simp [dotQ, jsDiv]
  · intro h
    cases h

/-- Claim C4, amended: neither implementation ever throws (both are total
Lean functions).  The dense-mode `CursorSemanticIndex.cosineSimilarity`
returns `0` whenever either argument has zero norm; the lexical-mode
`SemanticContextManager.cosineSimilarity` instead returns `NaN` on zero-norm
arguments of equal length; and for every non-zero vector `v`,
`cosineSimilarity(v, v)` is exactly `1` in both implementations. -/
theorem claim_C4_amended_cosine_zero_norm_and_self :
    (∀ v w : List ℚ, dotQ v v = 0 ∨ dotQ w w = 0 →
        CursorSemanticIndex.cosineSimilarity v w = 0) ∧
    (∀ v w : List ℚ, v.length = w.length → dotQ v v = 0 ∨ dotQ w w = 0 →
        SemanticContextManager.cosineSimilarity v w = JsNum.nan) ∧
    (∀ v : List ℚ, (∃ x ∈ v, x ≠ 0) →
        SemanticContextManager.cosineSimilarity v v = JsNum.num 1 ∧
        CursorSemanticIndex.cosineSimilarity v v = 1) := by
  refine ⟨?_, ?_, ?_⟩
  · intro v w h
    unfold CursorSemanticIndex.cosineSimilarity
    split
    · rfl
    · have hden : Real.sqrt (dotQ v v) * Real.sqrt (dotQ w w) = 0 := by
        rcases h with h | h <;> rw [h] <;> simp
      simp only [hden]
      simp
  · intro v w hlen h
    have hnum : dotQ v w = 0 := by
      rcases h with h | h
      · exact dotQ_zero_left (dotQ_self_eq_zero h) w
      · rw [dotQ_comm]
        exact dotQ_zero_left (dotQ_self_eq_zero h) v
    have hden : Real.sqrt (dotQ v v) * Real.sqrt (dotQ w w) = 0 := by
      rcases h with h | h <;> rw [h] <;> simp
    unfold SemanticContextManager.cosineSimilarity
    rw [if_neg (by simp [hlen])]
    rw [hnum, hden]
    simp [jsDiv]
  · intro v hv
    have hpos : 0 < dotQ v v := dotQ_self_pos hv
    have hposR : (0 : ℝ) < (dotQ v v : ℝ) := by exact_mod_cast hpos
    have hden : Real.sqrt (dotQ v v) * Real.sqrt (dotQ v v) = (dotQ v v : ℝ) :=
      Real.mul_self_sqrt (le_of_lt hposR)
    constructor
    · unfold SemanticContextManager.cosineSimilarity
      rw [if_neg (by simp)]
      rw [hden]
      unfold jsDiv
      rw [if_neg (ne_of_gt hposR)]
      rw [div_self (ne_of_gt hposR)]
    · unfold CursorSemanticIndex.cosineSimilarity
      rw [if_neg (by simp)]
      simp only [hden]
      rw [if_neg (ne_of_gt hposR)]
      exact div_self (ne_of_gt hposR)

/-- Witness for the amended C4 at concrete inputs: the zero vector has zero
norm and `[1]` is a non-zero vector. -/
theorem claim_C4_amended_witness :
    (dotQ [(0 : ℚ)] [(0 : ℚ)] = 0 ∨ dotQ [(5 : ℚ)] [(5 : ℚ)] = 0) ∧
    CursorSemanticIndex.cosineSimilarity [(0 : ℚ)] [(5 : ℚ)] = 0 ∧
    SemanticContextManager.cosineSimilarity [(0 : ℚ)] [(0 : ℚ)] = JsNum.nan ∧
    SemanticContextManager.cosineSimilarity [(1 : ℚ)] [(1 : ℚ)] = JsNum.num 1 ∧
    CursorSemanticIndex.cosineSimilarity [(1 : ℚ)] [(1 : ℚ)] = 1 :=
  ⟨Or.inl (by simp [dotQ]),
   claim_C4_amended_cosine_zero_norm_and_self.1 [(0 : ℚ)] [(5 : ℚ)] (Or.inl (by simp [dotQ])),
   claim_C4_amended_cosine_zero_norm_and_self.2.1 [(0 : ℚ)] [(0 : ℚ)] rfl
     (Or.inl (by simp [dotQ])),
   (claim_C4_amended_cosine_zero_norm_and_self.2.2 [(1 : ℚ)]
     ⟨1, List.mem_singleton.mpr rfl, by simp⟩).1,
   (claim_C4_amended_cosine_zero_norm_and_self.2.2 [(1 : ℚ)]
     ⟨1, List.mem_singleton.mpr rfl, by simp⟩).2⟩

/-- Claim C3, counterexample to the claim as stated: `smallOverBundle`
estimates to 2 tokens against a budget of 1, so it is over budget; yet
`optimizeContext` returns it unchanged (no trimming condition fires), so the
output's estimated size still exceeds `maxTokens`, and it is not equal to the
minimum irreducible size either (the bundle with every trimmable section
emptied estimates to 0). -/
theorem claim_C3_counterexample_budget_not_enforced :
    1 < CursorContextRetriever.estimateTokens Examples.smallOverBundle ∧
    CursorContextRetriever.optimizeContext Examples.smallOverBundle 1 =
      Examples.smallOverBundle ∧
    1 < CursorContextRetriever.estimateTokens
      (CursorContextRetriever.optimizeContext Examples.smallOverBundle 1) ∧
    CursorContextRetriever.estimateTokens
        { Examples.smallOverBundle with semantic := Examples.emptySemantic } = 0 := by
  have hlen : ("aaaaaaaa" : String).length = 8 := rfl
  have hest : CursorContextRetriever.estimateTokens Examples.smallOverBundle = 2 := by
    simp only [CursorContextRetriever.estimateTokens, Examples.smallOverBundle,
      Examples.emptyImmediate, Examples.smallSemantic, Examples.emptyStructural,
      Examples.emptyRecent, CursorContextRetriever.charsPerToken]
    norm_num [hlen]
  have hopt : CursorContextRetriever.optimizeContext Examples.smallOverBundle 1 =
      Examples.smallOverBundle := by
    simp [CursorContextRetriever.optimizeContext, hest, Examples.smallOverBundle,
      Examples.smallSemantic, Examples.emptyStructural, Examples.emptyRecent]
  have hmin : CursorContextRetriever.estimateTokens
      { Examples.smallOverBundle with semantic := Examples.emptySemantic } = 0 := by
    simp [CursorContextRetriever.estimateTokens, Examples.smallOverBundle,
      Examples.emptyImmediate, Examples.emptySemantic, Examples.emptyStructural,
      Examples.emptyRecent]
  refine ⟨by rw [hest]; norm_num, hopt, by rw [hopt, hest]; norm_num, hmin⟩

/-- Claim C3, amended: when the estimated size exceeds `maxTokens`,
`optimizeContext` leaves the `immediate` section (and the `project` field)
untouched, and caps each trimmable list once — semantic chunks to 5, outline
sections to 10, recently-edited entries to 3 — keeping prefixes of the
originals; it does not guarantee that the resulting estimate fits the budget
(see the counterexample). -/
theorem claim_C3_amended_optimize_preserves_immediate_and_caps
    (ctx : CursorContextRetriever.ContextBundle) (maxTokens : Int)
    (hover : maxTokens < CursorContextRetriever.estimateTokens ctx) :
    (CursorContextRetriever.optimizeContext ctx maxTokens).immediate = ctx.immediate ∧
    (CursorContextRetriever.optimizeContext ctx maxTokens).project = ctx.project ∧
    (CursorContextRetriever.optimizeContext ctx maxTokens).semantic.relevantChunks.length =
      min ctx.semantic.relevantChunks.length 5 ∧
    (∃ t, (CursorContextRetriever.optimizeContext ctx maxTokens).semantic.relevantChunks ++ t =
      ctx.semantic.relevantChunks) ∧
    (CursorContextRetriever.optimizeContext ctx maxTokens).structural.outline.sections.length =
      min ctx.structural.outline.sections.length 10 ∧
    (∃ t, (CursorContextRetriever.optimizeContext ctx maxTokens).structural.outline.sections ++ t =
      ctx.structural.outline.sections) ∧
    (CursorContextRetriever.optimizeContext ctx maxTokens).recent.recentlyEdited.length =
      min ctx.recent.recentlyEdited.length 3 ∧
    (∃ t, (CursorContextRetriever.optimizeContext ctx maxTokens).recent.recentlyEdited ++ t =
      ctx.recent.recentlyEdited) := by
  unfold CursorContextRetriever.optimizeContext
  dsimp only
  rw [if_pos hover]
  have hex : 0 < CursorContextRetriever.estimateTokens ctx - maxTokens := by omega
  refine ⟨rfl, rfl, ?_, ?_, ?_, ?_, ?_, ?_⟩
  · dsimp only
    split
    · dsimp only
      simp only [List.length_take]
      omega
    · rename_i hc
      have h5 : ¬ 5 < ctx.semantic.relevantChunks.length := fun h => hc ⟨hex, h⟩
      omega
  · dsimp only
    split
    · exact ⟨ctx.semantic.relevantChunks.drop 5, List.take_append_drop 5 _⟩
    · exact ⟨[], List.append_nil _⟩
  · dsimp only
    split
    · dsimp only
      simp only [List.length_take]
      omega
    · rename_i hc
      have h10 : ¬ 10 < ctx.structural.outline.sections.length := fun h => hc ⟨hex, h⟩
      omega
  · dsimp only
    split
    · exact ⟨ctx.structural.outline.sections.drop 10, List.take_append_drop 10 _⟩
    · exact ⟨[], List.append_nil _⟩
  · dsimp only
    split
    · dsimp only
      simp only [List.length_take]
      omega
    · rename_i hc
      have h3 : ¬ 3 < ctx.recent.recentlyEdited.length := fun h => hc ⟨hex, h⟩
      omega
  · dsimp only
    split
    · exact ⟨ctx.recent.recentlyEdited.drop 3, List.take_append_drop 3 _⟩
    · exact ⟨[], List.append_nil _⟩

/-- Witness for the amended C3: the empty bundle estimates to 0, which
exceeds a budget of -1. -/
theorem claim_C3_amended_witness :
    (-1 : Int) < CursorContextRetriever.estimateTokens Examples.emptyBundle ∧
    (CursorContextRetriever.optimizeContext Examples.emptyBundle (-1)).immediate =
      Examples.emptyBundle.immediate :=
  ⟨by simp [CursorContextRetriever.estimateTokens, Examples.emptyBundle,
      Examples.emptyImmediate, Examples.emptySemantic, Examples.emptyStructural,
      Examples.emptyRecent],
   (claim_C3_amended_optimize_preserves_immediate_and_caps Examples.emptyBundle (-1)
     (by simp [CursorContextRetriever.estimateTokens, Examples.emptyBundle,
       Examples.emptyImmediate, Examples.emptySemantic, Examples.emptyStructural,
       Examples.emptyRecent])).1⟩

/-- Claim C8, counterexample to the claim as stated: the non-streaming
`getImprovement` does produce a user-visible message on abort — both the
hosted path (whose catch-all swallows any rejection) and the API path return
the fixed string "The request was aborted.", which is not silence. -/
theorem claim_C8_counterexample_nonstreaming_abort_message :
    Improvement.getImprovementHosted id Improvement.FetchOutcome.exn =
      Improvement.abortMsg ∧
    Improvement.getImprovementApi Improvement.ApiOutcome.abortError =
      Improvement.abortMsg ∧
    Improvement.abortMsg ≠ "" := by
  refine ⟨rfl, rfl, ?_⟩
  intro h
  have : Improvement.abortMsg.length = 0 := by rw [h]; rfl
  exact absurd this (by decide)

/-- Claim C8, amended: the streaming generators do terminate silently on
cancellation — an aborted hosted stream emits exactly the tokens read before
the abort (the same output as a clean completion of those reads) and never an
error chunk, and an aborted OpenAI stream likewise adds nothing after its
tokens and no error chunk; the non-streaming `getImprovement`, however,
returns the message "The request was aborted." instead of being silent. -/
theorem claim_C8_amended_stream_abort_silent :
    (∀ (post : String → String) (reads : List String),
      Improvement.getImprovementStreamHosted post
          (Improvement.StreamHostedOutcome.stream reads true) =
        Improvement.getImprovementStreamHosted post
          (Improvement.StreamHostedOutcome.stream reads false) ∧
      ∀ m, Improvement.StreamChunk.error m ∉
        Improvement.getImprovementStreamHosted post
          (Improvement.StreamHostedOutcome.stream reads true)) ∧
    (∀ parts : List (Option String),
      Improvement.getImprovementStreamApi parts Improvement.StreamTerm.abort =
        Improvement.getImprovementStreamApi parts Improvement.StreamTerm.done ∧
      ∀ m, Improvement.StreamChunk.error m ∉
        Improvement.getImprovementStreamApi parts Improvement.StreamTerm.abort) ∧
    (∀ post : String → String,
      Improvement.getImprovementHosted post Improvement.FetchOutcome.exn =
        Improvement.abortMsg) ∧
    Improvement.getImprovementApi Improvement.ApiOutcome.abortError =
      Improvement.abortMsg := by
  refine ⟨?_, ?_, fun _ => rfl, rfl⟩
  · intro post reads
    refine ⟨rfl, ?_⟩
    intro m hm
    unfold Improvement.getImprovementStreamHosted at hm
    rcases List.mem_map.mp hm with ⟨t, _, ht⟩
    cases ht
  · intro parts
    refine ⟨rfl, ?_⟩
    intro m hm
    unfold Improvement.getImprovementStreamApi at hm
    rcases List.mem_map.mp hm with ⟨t, _, ht⟩
    cases ht

/-! ### Lemmas about the query cache -/

namespace CursorCache

theorem isIdenticalQuery_refl (q : ContextQuery) : isIdenticalQuery q q = true := by
  unfold isIdenticalQuery
  simp

theorem getContext_fast_path {retrieve : String → Option (List CursorSemanticIndex.SemChunk)}
    {now : Nat} {s : CacheState} {q q0 : ContextQuery} {r : Context}
    (h : s.lastContext = some (q0, r)) (hid : isIdenticalQuery q0 q = true) :
    getContext retrieve now s q = (r, s, false) := by
  unfold getContext
  rw [h]
  simp [hid]

theorem getContext_lastContext
    (retrieve : String → Option (List CursorSemanticIndex.SemChunk))
    (now : Nat) (s : CacheState) (q : ContextQuery) :
    ∃ q0, ((getContext retrieve now s q).2.1).lastContext =
        some (q0, (getContext retrieve now s q).1) ∧
      isIdenticalQuery q0 q = true := by
  unfold getContext
  cases hl : s.lastContext with
  | none =>
    dsimp only
    unfold getContextMain
    dsimp only
    refine ⟨q, ?_, isIdenticalQuery_refl q⟩
    split
    · split <;> rfl
    · rfl
  | some p =>
    obtain ⟨lq, lr⟩ := p
    dsimp only
    split
    · rename_i hid
      exact ⟨lq, hl, by simpa using hid⟩
    · unfold getContextMain
      dsimp only
      refine ⟨q, ?_, isIdenticalQuery_refl q⟩
      split
      · split <;> rfl
      · rfl

end CursorCache

/-- Claim C9: a second `getContext` call with an identical query (same
`filePath`, `cursorPosition`, `content` and the same `projectContext`)
immediately after a first call is served from the remembered
(query, result) pair: it returns the first call's result, leaves the cache
state untouched (no table lookup, no bookkeeping update), and does not invoke
`buildContext` (the build flag of the model is `false`). -/
theorem claim_C9_identical_query_served_from_memo
    (retrieve : String → Option (List CursorSemanticIndex.SemChunk))
    (now1 now2 : Nat) (s : CursorCache.CacheState) (q : CursorCache.ContextQuery) :
    CursorCache.getContext retrieve now2
        ((CursorCache.getContext retrieve now1 s q).2.1) q =
      ((CursorCache.getContext retrieve now1 s q).1,
        (CursorCache.getContext retrieve now1 s q).2.1, false) := by
  rcases CursorCache.getContext_lastContext retrieve now1 s q with ⟨q0, hlast, hid⟩
  exact CursorCache.getContext_fast_path hlast hid

/-- Claim C10: the single-entry fast path performs no staleness check — a
repeated identical query returns the remembered `Context` unchanged and
without rebuilding even at a time `now2` at which its age exceeds the
five-minute `cacheTimeout`, while the general-table path would reject an
entry of that age via `isStale`. -/
theorem claim_C10_fast_path_ignores_ttl
    (retrieve : String → Option (List CursorSemanticIndex.SemChunk))
    (now1 now2 : Nat) (s : CursorCache.CacheState) (q : CursorCache.ContextQuery)
    (hold : CursorCache.cacheTimeout <
      now2 - ((CursorCache.getContext retrieve now1 s q).1).timestamp) :
    (CursorCache.getContext retrieve now2
        ((CursorCache.getContext retrieve now1 s q).2.1) q).1 =
      (CursorCache.getContext retrieve now1 s q).1 ∧
    (CursorCache.getContext retrieve now2
        ((CursorCache.getContext retrieve now1 s q).2.1) q).2.2 = false ∧
    (∀ key e, mapGet ((CursorCache.getContext retrieve now1 s q).2.1).cache key = some e →
      CursorCache.cacheTimeout < now2 - e.context.timestamp →
      CursorCache.isStale ((CursorCache.getContext retrieve now1 s q).2.1) now2 key = true) := by
  rcases CursorCache.getContext_lastContext retrieve now1 s q with ⟨q0, hlast, hid⟩
  have hfast := @CursorCache.getContext_fast_path retrieve now2 _ _ _ _ hlast hid
  refine ⟨by rw [hfast], by rw [hfast], ?_⟩
  intro key e hk hstale
  unfold CursorCache.isStale
  rw [hk]
  exact decide_eq_true hstale

/-- Witness for C10: a concrete repeat of the same query 300002 ms after the
context was built (TTL is 300000 ms) still returns the stale context. -/
theorem claim_C10_witness :
    CursorCache.cacheTimeout < 300002 -
      ((CursorCache.getContext Examples.retrieveF 0 (CursorCache.initState 0)
        Examples.queryOnA).1).timestamp ∧
    (CursorCache.getContext Examples.retrieveF 300002
        ((CursorCache.getContext Examples.retrieveF 0 (CursorCache.initState 0)
          Examples.queryOnA).2.1) Examples.queryOnA).1 =
      (CursorCache.getContext Examples.retrieveF 0 (CursorCache.initState 0)
        Examples.queryOnA).1 :=
  ⟨by decide,
   (claim_C10_fast_path_ignores_ttl Examples.retrieveF 0 300002
     (CursorCache.initState 0) Examples.queryOnA (by decide)).1⟩

/-! ### Lemmas about the line diff and targeted invalidation -/

theorem splitOnNl_ne_nil (s : List Char) : splitOnNl s ≠ [] := by
  cases s with
  | nil => simp [splitOnNl]
  | cons c cs =>
    simp only [splitOnNl]
    split
    · simp
    · split <;> simp

theorem joinNl_cons (a : List Char) {L : List (List Char)} (h : L ≠ []) :
    joinNl (a :: L) = a ++ '\n' :: joinNl L := by
  cases L with
  | nil => exact absurd rfl h
  | cons b ls => rfl

theorem joinNl_splitOnNl (s : List Char) : joinNl (splitOnNl s) = s := by
  induction s with
  | nil => rfl
  | cons c cs ih =>
    simp only [splitOnNl]
    split
    · rename_i hc
      rw [joinNl_cons _ (splitOnNl_ne_nil cs), ih, hc]
      rfl
    · cases hsp : splitOnNl cs with
      | nil => exact absurd hsp (splitOnNl_ne_nil cs)
      | cons t ts =>
        rw [hsp] at ih
        cases ts with
        | nil =>
          simp only [joinNl] at ih ⊢
          rw [ih]
        | cons t2 ts2 =>
          rw [joinNl_cons _ (by simp)] at ih
          rw [joinNl_cons _ (by simp)]
          simp only [List.cons_append]
          rw [ih]

theorem splitOnNl_injective {a b : List Char} (h : splitOnNl a = splitOnNl b) :
    a = b := by
  rw [← joinNl_splitOnNl a, ← joinNl_splitOnNl b, h]

theorem detectInserts_eq_nil {now i : Nat} {ns : List (List Char)}
    (h : CursorCache.detectInserts now i ns = []) : ns = [] := by
  cases ns with
  | nil => rfl
  | cons n ns2 => simp [CursorCache.detectInserts] at h

theorem detectGo_eq_nil {now : Nat} {os ns : List (List Char)} {i : Nat}
    (h : CursorCache.detectGo now i os ns = []) : os = ns := by
  induction os generalizing ns i with
  | nil =>
    cases ns with
    | nil => rfl
    | cons n ns2 =>
      simp only [CursorCache.detectGo] at h
      simp [CursorCache.detectInserts] at h
  | cons o os2 ih =>
    cases ns with
    | nil =>
      simp only [CursorCache.detectGo] at h
      simp [CursorCache.detectDeletes] at h
    | cons n ns2 =>
      simp only [CursorCache.detectGo] at h
      rcases List.append_eq_nil.mp h with ⟨h1, h2⟩
      have hon : o = n := by
        by_contra hne
        rw [if_pos hne] at h1
        cases h1
      rw [hon, ih h2]

theorem detectChanges_ne_nil {now : Nat} {oldContent newContent : String}
    (h : oldContent ≠ newContent) :
    CursorCache.detectChanges now oldContent newContent ≠ [] := by
  intro hnil
  unfold CursorCache.detectChanges at hnil
  have := splitOnNl_injective (detectGo_eq_nil hnil)
  exact h (by
    have h2 : oldContent.data = newContent.data := this
    cases oldContent
    cases newContent
    simp only at h2
    rw [h2])

/-- Claim C2, amended: after `triggerFileChange(F, new)` with `new` differing
from the previously recorded content of `F`, every general-table entry whose
cached context references a chunk of `F` is removed (so the table can no
longer serve a pre-change context for `F`); the single-entry fast path,
however, is cleared only when the remembered query's `filePath` equals `F` —
a remembered context that references chunks of `F` but was served for a query
on a different file survives and can still be returned (see the
counterexample). -/
theorem claim_C2_amended_invalidation_scope
    (now : Nat) (s : CursorCache.CacheState) (F newContent : String)
    (hchange : (mapGet s.watcherContent F).getD "" ≠ newContent) :
    (∀ p ∈ (CursorCache.triggerFileChange now s F newContent).cache,
        CursorCache.mentionsFile p.2.context F = false) ∧
    (∀ lq lr, s.lastContext = some (lq, lr) → lq.filePath = F →
        (CursorCache.triggerFileChange now s F newContent).lastContext = none) ∧
    (∀ lq lr, s.lastContext = some (lq, lr) → lq.filePath ≠ F →
        (CursorCache.triggerFileChange now s F newContent).lastContext = some (lq, lr)) := by
  unfold CursorCache.triggerFileChange
  have hne : ¬ (CursorCache.detectChanges now ((mapGet s.watcherContent F).getD "") newContent).isEmpty = true := by
    rw [List.isEmpty_iff]
    exact detectChanges_ne_nil hchange
  rw [if_neg hne]
  refine ⟨?_, ?_, ?_⟩
  · intro p hp
    have := (List.mem_filter.mp hp).2
    unfold CursorCache.mentionsFile
    simpa using this
  · intro lq lr hl hf
    dsimp only
    rw [hl]
    simp [hf]
  · intro lq lr hl hf
    dsimp only
    rw [hl]
    simp [hf]

/-- Claim C2, counterexample to the claim as stated: build a context for a
query on `a.tex` whose retrieved chunks come from `f.tex` (step 1), report a
change to `f.tex` (step 2, which does invalidate the general-table entry),
then repeat the identical query (step 3).  The fast path returns the very
context built before the change — it still contains a chunk whose `file` is
`f.tex` (its timestamp 0 predates the change at time 1), and no rebuild
happened. -/
theorem claim_C2_counterexample_fast_path_leak :
    CursorCache.mentionsFile
      (CursorCache.getContext Examples.retrieveF 0 (CursorCache.initState 0)
        Examples.queryOnA).1 "f.tex" = true ∧
    (CursorCache.getContext Examples.retrieveF 0 (CursorCache.initState 0)
      Examples.queryOnA).1.timestamp = 0 ∧
    (CursorCache.getContext Examples.retrieveF 2
        (CursorCache.triggerFileChange 1
          (CursorCache.getContext Examples.retrieveF 0 (CursorCache.initState 0)
            Examples.queryOnA).2.1 "f.tex" "changed line")
        Examples.queryOnA).1 =
      (CursorCache.getContext Examples.retrieveF 0 (CursorCache.initState 0)
        Examples.queryOnA).1 ∧
    (CursorCache.getContext Examples.retrieveF 2
        (CursorCache.triggerFileChange 1
          (CursorCache.getContext Examples.retrieveF 0 (CursorCache.initState 0)
            Examples.queryOnA).2.1 "f.tex" "changed line")
        Examples.queryOnA).2.2 = false ∧
    (CursorCache.triggerFileChange 1
        (CursorCache.getContext Examples.retrieveF 0 (CursorCache.initState 0)
          Examples.queryOnA).2.1 "f.tex" "changed line").cache = [] := by
  decide

/-- Witness for the amended C2 at the concrete step-1 state of the
counterexample trace. -/
theorem claim_C2_amended_witness :
    (mapGet (CursorCache.getContext Examples.retrieveF 0 (CursorCache.initState 0)
        Examples.queryOnA).2.1.watcherContent "f.tex").getD "" ≠ "changed line" ∧
    (∀ p ∈ (CursorCache.triggerFileChange 1
        (CursorCache.getContext Examples.retrieveF 0 (CursorCache.initState 0)
          Examples.queryOnA).2.1 "f.tex" "changed line").cache,
      CursorCache.mentionsFile p.2.context "f.tex" = false) :=
  ⟨by decide,
   (claim_C2_amended_invalidation_scope 1
     (CursorCache.getContext Examples.retrieveF 0 (CursorCache.initState 0)
       Examples.queryOnA).2.1 "f.tex" "changed line" (by decide)).1⟩

/-- Claim C1 (code bug), evaluation at the failing input: `overfullCache` has
101 entries; `cleanupCache` removes exactly one entry, but the removed entry
is `hot` — the unique entry with the *highest* access count (5, all others 1)
— because the comparator sorts descending by access count and the code slices
victims from the front of the sorted array.  The claim (and the code's own
comment, and the spec) call for evicting the lowest-access entry instead.
Every surviving entry has access count 1. -/
theorem claim_C1_failing_input_evicts_most_used :
    Examples.overfullCache.length = 101 ∧
    (mapGet Examples.overfullCache "hot").isSome = true ∧
    (CursorCache.cleanupCache Examples.overfullCache).length = 100 ∧
    mapGet (CursorCache.cleanupCache Examples.overfullCache) "hot" = none ∧
    (mapGet (CursorCache.cleanupCache Examples.overfullCache) "k0").isSome = true ∧
    (∀ p ∈ CursorCache.cleanupCache Examples.overfullCache,
      p.2.accessCount = 1) := by
  decide

/-! ### Lemmas about the ranking pipelines -/

theorem jsLt_irrefl (x : JsNum) : jsLt x x = false := by
  cases x <;> simp [jsLt]

theorem denom_zero_num_zero {v w : List ℚ}
    (h : Real.sqrt (dotQ v v) * Real.sqrt (dotQ w w) = 0) :
    ((dotQ v w : ℚ) : ℝ) = 0 := by
  rcases mul_eq_zero.mp h with h1 | h1
  · have hle : ((dotQ v v : ℚ) : ℝ) ≤ 0 := Real.sqrt_eq_zero'.mp h1
    have hq : dotQ v v = 0 :=
      le_antisymm (by exact_mod_cast hle) (dotQ_self_nonneg v)
    rw [dotQ_zero_left (dotQ_self_eq_zero hq) w]
    simp
  · have hle : ((dotQ w w : ℚ) : ℝ) ≤ 0 := Real.sqrt_eq_zero'.mp h1
    have hq : dotQ w w = 0 :=
      le_antisymm (by exact_mod_cast hle) (dotQ_self_nonneg w)
    rw [dotQ_comm, dotQ_zero_left (dotQ_self_eq_zero hq) v]
    simp

theorem cosineSimilarity_lex_num_or_nan (v w : List ℚ) :
    (∃ x : ℝ, SemanticContextManager.cosineSimilarity v w = JsNum.num x) ∨
    SemanticContextManager.cosineSimilarity v w = JsNum.nan := by
  unfold SemanticContextManager.cosineSimilarity
  split
  · exact Or.inl ⟨0, rfl⟩
  · unfold jsDiv
    split
    · rename_i hden
      split
      · exact Or.inr rfl
      · rename_i hnum
        exact absurd (denom_zero_num_zero hden) hnum
    · exact Or.inl ⟨_, rfl⟩

theorem jsGtConst_lex_num {v w : List ℚ} {c : ℝ}
    (h : jsGtConst (SemanticContextManager.cosineSimilarity v w) c = true) :
    ∃ x : ℝ, SemanticContextManager.cosineSimilarity v w = JsNum.num x ∧ c < x := by
  rcases cosineSimilarity_lex_num_or_nan v w with ⟨x, hx⟩ | hnan
  · rw [hx] at h
    exact ⟨x, hx, of_decide_eq_true h⟩
  · rw [hnan] at h
    cases h

theorem mapGet_eq_of_mem_nodup {embs : List (String × α)} {id : String} {e : α}
    (hmem : (id, e) ∈ embs) (hnodup : (embs.map Prod.fst).Nodup) :
    mapGet embs id = some e := by
  induction embs with
  | nil => cases hmem
  | cons p ps ih =>
    obtain ⟨k, v⟩ := p
    rcases List.pairwise_cons.mp hnodup with ⟨hk, hps⟩
    rcases List.mem_cons.mp hmem with heq | hmem2
    · cases heq
      unfold mapGet
      simp [List.find?]
    · have hne : id ≠ k := by
        intro heq
        subst heq
        exact hk id (List.mem_map.mpr ⟨(id, e), hmem2, rfl⟩) rfl
      unfold mapGet at ih ⊢
      rw [List.find?]
      have : (decide (k = id)) = false := by
        simp only [decide_eq_false_iff_not]
        exact fun h => hne h.symm
      rw [this]
      exact ih hmem2 hps

theorem chunkScore_num_or_nan (query : String) (chunks : List CodeChunker.TexChunk)
    (c : CodeChunker.TexChunk) :
    (∃ x : ℝ, SemanticContextManager.chunkScore query chunks c = JsNum.num x) ∨
    SemanticContextManager.chunkScore query chunks c = JsNum.nan :=
  cosineSimilarity_lex_num_or_nan _ _

theorem jsGtConst_num {s : JsNum} {c : ℝ}
    (hs : (∃ x : ℝ, s = JsNum.num x) ∨ s = JsNum.nan)
    (h : jsGtConst s c = true) : ∃ x, s = JsNum.num x ∧ c < x := by
  rcases hs with ⟨x, hx⟩ | hnan
  · rw [hx] at h
    exact ⟨x, hx, of_decide_eq_true h⟩
  · rw [hnan] at h
    cases h

theorem lexRanking_spec (query : String) (chunks : List CodeChunker.TexChunk) (k : Nat) :
    (SemanticContextManager.getRelevantContextFresh query chunks k).Pairwise
      (fun a b => jsLt (SemanticContextManager.chunkScore query chunks a)
        (SemanticContextManager.chunkScore query chunks b) = false) ∧
    (∀ c ∈ SemanticContextManager.getRelevantContextFresh query chunks k,
      jsGtConst (SemanticContextManager.chunkScore query chunks c) (1 / 10) = true) ∧
    (SemanticContextManager.getRelevantContextFresh query chunks k).length ≤ k ∧
    (∀ v : JsNum, ∃ t,
      (SemanticContextManager.getRelevantContextFresh query chunks k).filter
          (fun c => decide (SemanticContextManager.chunkScore query chunks c = v)) ++ t =
        chunks.filter (fun c =>
          jsGtConst (SemanticContextManager.chunkScore query chunks c) (1 / 10) &&
          decide (SemanticContextManager.chunkScore query chunks c = v))) := by
  have houtdef : SemanticContextManager.getRelevantContextFresh query chunks k =
      ((sortComp (fun a b => jsLt b.2 a.2)
          ((chunks.map (fun c => (c, SemanticContextManager.chunkScore query chunks c))).filter
            (fun p => jsGtConst p.2 (1 / 10)))).take k).map Prod.fst := rfl
  have hFL : ∀ p ∈ (chunks.map
        (fun c => (c, SemanticContextManager.chunkScore query chunks c))).filter
        (fun p => jsGtConst p.2 (1 / 10)),
      p.2 = SemanticContextManager.chunkScore query chunks p.1 ∧
        jsGtConst p.2 (1 / 10) = true := by
    intro p hp
    rcases List.mem_filter.mp hp with ⟨hmem, hthr⟩
    rcases List.mem_map.mp hmem with ⟨c, _, rfl⟩
    exact ⟨rfl, hthr⟩
  have hT : ∀ p ∈ (sortComp (fun a b => jsLt b.2 a.2)
        ((chunks.map
          (fun c => (c, SemanticContextManager.chunkScore query chunks c))).filter
          (fun p => jsGtConst p.2 (1 / 10)))).take k,
      p.2 = SemanticContextManager.chunkScore query chunks p.1 ∧
        jsGtConst p.2 (1 / 10) = true :=
    fun p hp => hFL p (mem_sortComp.mp ((List.take_sublist k _).subset hp))
  have hnum : ∀ p ∈ (chunks.map
        (fun c => (c, SemanticContextManager.chunkScore query chunks c))).filter
        (fun p => jsGtConst p.2 (1 / 10)),
      ∃ x : ℝ, p.2 = JsNum.num x ∧ (1 : ℝ) / 10 < x := by
    intro p hp
    rcases hFL p hp with ⟨hsc, hthr⟩
    rcases List.mem_filter.mp hp with ⟨hmem, _⟩
    rcases List.mem_map.mp hmem with ⟨c, _, rfl⟩
    exact jsGtConst_num (chunkScore_num_or_nan query chunks c) hthr
  have hcongr : sortComp (fun a b => jsLt b.2 a.2)
        ((chunks.map
          (fun c => (c, SemanticContextManager.chunkScore query chunks c))).filter
          (fun p => jsGtConst p.2 (1 / 10))) =
      sortComp (fun a b => decide (jsVal b.2 < jsVal a.2))
        ((chunks.map
          (fun c => (c, SemanticContextManager.chunkScore query chunks c))).filter
          (fun p => jsGtConst p.2 (1 / 10))) := by
    apply sortComp_congr
    intro a ha b hb
    rcases hnum a ha with ⟨xa, hxa, _⟩
    rcases hnum b hb with ⟨xb, hxb, _⟩
    rw [hxa, hxb]
    rfl
  refine ⟨?_, ?_, ?_, ?_⟩
  · -- sortedness, descending by score
    rw [houtdef, List.pairwise_map]
    have hpw : (sortComp (fun a b => decide (jsVal b.2 < jsVal a.2))
        ((chunks.map
          (fun c => (c, SemanticContextManager.chunkScore query chunks c))).filter
          (fun p => jsGtConst p.2 (1 / 10)))).Pairwise
        (fun a b => jsVal b.2 ≤ jsVal a.2) := by
      apply pairwise_sortComp
      · intro a b hab
        exact le_of_lt (of_decide_eq_true hab)
      · intro a b hab
        exact le_of_not_lt (of_decide_eq_false hab)
      · intro a b c hab hbc
        exact le_trans hbc hab
    rw [← hcongr] at hpw
    have hpwt := hpw.sublist (List.take_sublist k _)
    refine hpwt.imp_of_mem ?_
    intro a b ha hb hle
    obtain ⟨hsa, hthra⟩ := hT a ha
    obtain ⟨hsb, hthrb⟩ := hT b hb
    rcases jsGtConst_num (hsa ▸ chunkScore_num_or_nan query chunks a.1) hthra
      with ⟨xa, hxa, _⟩
    rcases jsGtConst_num (hsb ▸ chunkScore_num_or_nan query chunks b.1) hthrb
      with ⟨xb, hxb, _⟩
    rw [hsa] at hxa
    rw [hsb] at hxb
    rw [hxa, hxb]
    have hxaeq : jsVal a.2 = xa := by rw [hsa, hxa]; rfl
    have hxbeq : jsVal b.2 = xb := by rw [hsb, hxb]; rfl
    rw [hxaeq, hxbeq] at hle
    simp only [jsLt]
    exact decide_eq_false (not_lt.mpr hle)
  · -- threshold
    intro c hc
    rw [houtdef] at hc
    rcases List.mem_map.mp hc with ⟨p, hp, rfl⟩
    rcases hT p hp with ⟨hsc, hthr⟩
    rw [← hsc]
    exact hthr
  · -- truncation to at most k results
    rw [houtdef, List.length_map, List.length_take]
    exact min_le_left _ _
  · -- stable ties: the tied survivors keep their original chunk order
    intro v
    rw [houtdef]
    rw [filter_map_fst (SemanticContextManager.chunkScore query chunks)
      (fun d => decide (d = v)) _ (fun p hp => (hT p hp).1)]
    refine ⟨(((sortComp (fun a b => jsLt b.2 a.2)
        ((chunks.map
          (fun c => (c, SemanticContextManager.chunkScore query chunks c))).filter
          (fun p => jsGtConst p.2 (1 / 10)))).drop k).filter
          (fun p => decide (p.2 = v))).map Prod.fst, ?_⟩
    rw [← List.map_append,
      filter_take_append (fun p => decide (p.2 = v)) k
        (sortComp (fun a b => jsLt b.2 a.2)
          ((chunks.map
            (fun c => (c, SemanticContextManager.chunkScore query chunks c))).filter
            (fun p => jsGtConst p.2 (1 / 10))))]
    rw [filter_sortComp_of_tied (fun a b hpa hpb => by
      rw [of_decide_eq_true hpa, of_decide_eq_true hpb, jsLt_irrefl])]
    rw [List.filter_filter, filter_map_comm, List.map_map]
    have hclean : (Prod.fst ∘ fun c =>
        (c, SemanticContextManager.chunkScore query chunks c)) = fun c => c := rfl
    rw [hclean, List.map_id']
    exact List.filter_congr (fun a _ => Bool.and_comm _ _)

theorem denseRanking_spec (qe : List ℚ) (embs : List (String × List ℚ))
    (cidx : List (String × CursorSemanticIndex.SemChunk)) (limit : Nat)
    (hnodup : (embs.map Prod.fst).Nodup)
    (hco : ∀ id c, mapGet cidx id = some c → mapGet embs id = some c.embedding) :
    (CursorSemanticIndex.findRelevantCore qe embs cidx limit).Pairwise
      (fun c1 c2 => CursorSemanticIndex.cosineSimilarity qe c2.embedding ≤
        CursorSemanticIndex.cosineSimilarity qe c1.embedding) ∧
    (CursorSemanticIndex.findRelevantCore qe embs cidx limit).length ≤ limit ∧
    (∀ v : ℝ, ∃ t,
      (CursorSemanticIndex.rankedSims qe embs limit).filter
          (fun p => decide (p.2 = v)) ++ t =
        (CursorSemanticIndex.simList qe embs).filter (fun p => decide (p.2 = v))) := by
  have hrs : CursorSemanticIndex.rankedSims qe embs limit =
      (sortComp (fun a b => decide (b.2 < a.2))
        (CursorSemanticIndex.simList qe embs)).take limit := rfl
  have hfc : CursorSemanticIndex.findRelevantCore qe embs cidx limit =
      (CursorSemanticIndex.rankedSims qe embs limit).filterMap
        (fun sp => mapGet cidx sp.1) := rfl
  have hkey : ∀ sp ∈ CursorSemanticIndex.rankedSims qe embs limit,
      ∀ c, mapGet cidx sp.1 = some c →
        sp.2 = CursorSemanticIndex.cosineSimilarity qe c.embedding := by
    intro sp hsp c hc
    have hsp2 : sp ∈ CursorSemanticIndex.simList qe embs := by
      rw [hrs] at hsp
      exact mem_sortComp.mp ((List.take_sublist limit _).subset hsp)
    rcases List.mem_map.mp hsp2 with ⟨pr, hpr, rfl⟩
    have hemb : mapGet embs pr.1 = some pr.2 := by
      apply mapGet_eq_of_mem_nodup _ hnodup
      exact hpr
    have hemb2 := hco pr.1 c hc
    rw [hemb] at hemb2
    have hpe := Option.some.inj hemb2
    simp only
    rw [hpe]
  refine ⟨?_, ?_, ?_⟩
  · -- sorted descending by similarity to the query
    have hpw : (sortComp (fun a b => decide (b.2 < a.2))
        (CursorSemanticIndex.simList qe embs)).Pairwise
        (fun a b => b.2 ≤ a.2) := by
      apply pairwise_sortComp
      · intro a b hab
        exact le_of_lt (of_decide_eq_true hab)
      · intro a b hab
        exact le_of_not_lt (of_decide_eq_false hab)
      · intro a b c hab hbc
        exact le_trans hbc hab
    have hpwt : (CursorSemanticIndex.rankedSims qe embs limit).Pairwise
        (fun a b => b.2 ≤ a.2) := by
      rw [hrs]
      exact hpw.sublist (List.take_sublist limit _)
    rw [hfc]
    apply pairwise_filterMap_of_mem hpwt
    intro a b x y ha hb hr hga hgb
    rw [← hkey a ha x hga, ← hkey b hb y hgb]
    exact hr
  · rw [hfc]
    refine le_trans (List.length_filterMap_le _ _) ?_
    rw [hrs, List.length_take]
    exact min_le_left _ _
  · intro v
    rw [hrs]
    refine ⟨((sortComp (fun a b => decide (b.2 < a.2))
        (CursorSemanticIndex.simList qe embs)).drop limit).filter
        (fun p => decide (p.2 = v)), ?_⟩
    rw [filter_take_append (fun p => decide (p.2 = v)) limit
      (sortComp (fun a b => decide (b.2 < a.2)) (CursorSemanticIndex.simList qe embs))]
    exact filter_sortComp_of_tied (fun a b hpa hpb => by
      rw [of_decide_eq_true hpa, of_decide_eq_true hpb]
      simp) _

/-- Claim C5, counterexample to the claim as stated: the dense-mode
`findRelevantContext` embedding path applies no minimum-similarity threshold.
With one stored chunk whose embedding is orthogonal to the query embedding,
its similarity is 0 — which does not exceed the fixed 0.1 threshold — yet the
chunk is returned. -/
theorem claim_C5_counterexample_dense_no_threshold :
    CursorSemanticIndex.findRelevantCore [(0 : ℚ), 1] Examples.embsC5 Examples.cidxC5 5 =
      [Examples.chunkC1] ∧
    CursorSemanticIndex.cosineSimilarity [(0 : ℚ), 1] Examples.chunkC1.embedding = 0 ∧
    ¬((1 : ℝ) / 10 <
      CursorSemanticIndex.cosineSimilarity [(0 : ℚ), 1] Examples.chunkC1.embedding) := by
  have hcos : CursorSemanticIndex.cosineSimilarity [(0 : ℚ), 1]
      Examples.chunkC1.embedding = 0 := by
    have hvv : dotQ [(0 : ℚ), 1] [(0 : ℚ), 1] = 1 := by norm_num [dotQ]
    have hww : dotQ [(1 : ℚ), 0] [(1 : ℚ), 0] = 1 := by norm_num [dotQ]
    have hvw : dotQ [(0 : ℚ), 1] [(1 : ℚ), 0] = 0 := by norm_num [dotQ]
    show CursorSemanticIndex.cosineSimilarity [(0 : ℚ), 1] [(1 : ℚ), 0] = 0
    unfold CursorSemanticIndex.cosineSimilarity
    rw [if_neg (by simp)]
    dsimp only
    rw [hvv, hww, hvw]
    norm_num
  refine ⟨rfl, hcos, ?_⟩
  rw [hcos]
  norm_num

/-- Claim C5, amended: every fresh lexical ranking pass
(`SemanticContextManager.getRelevantContext` when the last-query memo does
not apply) returns chunks sorted descending by their similarity to the query,
rejects every chunk whose similarity does not exceed the 0.1 threshold,
truncates to the requested count, and keeps tied chunks in original order
(the tied survivors form a prefix of the thresholded original order).  The
dense-mode `CursorSemanticIndex.findRelevantContext` embedding path (for a
store whose ids are unique and whose chunk index agrees with its embedding
store) sorts descending, truncates to the requested count, and keeps ties in
store order — but it applies no minimum-similarity threshold (see the
counterexample). -/
theorem claim_C5_amended_ranking_sorted_thresholded_truncated_stable :
    (∀ (query : String) (chunks : List CodeChunker.TexChunk) (k : Nat),
      (SemanticContextManager.getRelevantContextFresh query chunks k).Pairwise
        (fun a b => jsLt (SemanticContextManager.chunkScore query chunks a)
          (SemanticContextManager.chunkScore query chunks b) = false) ∧
      (∀ c ∈ SemanticContextManager.getRelevantContextFresh query chunks k,
        jsGtConst (SemanticContextManager.chunkScore query chunks c) (1 / 10) = true) ∧
      (SemanticContextManager.getRelevantContextFresh query chunks k).length ≤ k ∧
      (∀ v : JsNum, ∃ t,
        (SemanticContextManager.getRelevantContextFresh query chunks k).filter
            (fun c => decide (SemanticContextManager.chunkScore query chunks c = v)) ++ t =
          chunks.filter (fun c =>
            jsGtConst (SemanticContextManager.chunkScore query chunks c) (1 / 10) &&
            decide (SemanticContextManager.chunkScore query chunks c = v)))) ∧
    (∀ (qe : List ℚ) (embs : List (String × List ℚ))
        (cidx : List (String × CursorSemanticIndex.SemChunk)) (limit : Nat),
      (embs.map Prod.fst).Nodup →
      (∀ id c, mapGet cidx id = some c → mapGet embs id = some c.embedding) →
      (CursorSemanticIndex.findRelevantCore qe embs cidx limit).Pairwise
        (fun c1 c2 => CursorSemanticIndex.cosineSimilarity qe c2.embedding ≤
          CursorSemanticIndex.cosineSimilarity qe c1.embedding) ∧
      (CursorSemanticIndex.findRelevantCore qe embs cidx limit).length ≤ limit ∧
      (∀ v : ℝ, ∃ t,
        (CursorSemanticIndex.rankedSims qe embs limit).filter
            (fun p => decide (p.2 = v)) ++ t =
          (CursorSemanticIndex.simList qe embs).filter (fun p => decide (p.2 = v)))) :=
  ⟨fun query chunks k => lexRanking_spec query chunks k,
   fun qe embs cidx limit hnodup hco => denseRanking_spec qe embs cidx limit hnodup hco⟩

/-- Witness for the amended C5 at a concrete dense store (the lexical part
has no hypotheses; the dense part's store-coherence hypotheses are discharged
at `embsC5`/`cidxC5`). -/
theorem claim_C5_amended_witness :
    (Examples.embsC5.map Prod.fst).Nodup ∧
    (CursorSemanticIndex.findRelevantCore [(0 : ℚ), 1] Examples.embsC5
      Examples.cidxC5 5).length ≤ 5 :=
  ⟨by decide,
   (claim_C5_amended_ranking_sorted_thresholded_truncated_stable.2 [(0 : ℚ), 1]
     Examples.embsC5 Examples.cidxC5 5 (by decide)
     (by
       intro id c h
       by_cases hid : id = "c1"
       · subst hid
         simp [mapGet, List.find?, Examples.cidxC5, Examples.embsC5] at h ⊢
         rw [← h]
         rfl
       · have hd : decide (("c1" : String) = id) = false :=
           decide_eq_false (fun hh => hid hh.symm)
         simp [mapGet, List.find?, Examples.cidxC5, hd] at h)).2.1⟩
